import Mathlib

/-!
Verification development for the delivery-receipt field extractor of
`parsing_session/functions.py`.

The Python functions are shallowly embedded as executable Lean definitions:

* text is `String` / `List Char`; Python `len` is the code-point count,
  matching `String.length`;
* the parsed HTML document (a BeautifulSoup tree) is embedded as `Dom`,
  a first-child / next-sibling tree, so that every traversal is a
  structural recursion that the kernel can evaluate;
* each regular expression used by the source is embedded as a dedicated
  matcher whose semantics (leftmost search, greedy/lazy backtracking,
  Python `$` matching at the end or before a final newline) are derived
  from the concrete pattern; the derivation is documented at each matcher;
* Python `float` results are modelled as exact rationals `ℚ` (every value
  compared in the claims is exactly representable, and no claim depends on
  IEEE rounding);
* `unicodedata.normalize('NFC', ·)` is modelled as the identity: the full
  NFC tables are out of scope, NFC never maps a non-ASCII character to an
  ASCII letter or digit, and no claim distinguishes a string from its NFC
  normal form;
* Python `\s`, `\w`, `\d` are modelled on the character sets below
  (`\w`/`\d` restricted to ASCII; all strings occurring in the claims are
  within that fragment).
-/

/-- Characters matched by Python's `\s` on `str` (`[ \t\n\r\f\v]` plus the
Unicode whitespace code points). -/
def pySpace (c : Char) : Bool :=
  decide (c.toNat = 32 ∨ c.toNat = 9 ∨ c.toNat = 10 ∨ c.toNat = 13 ∨
    c.toNat = 11 ∨ c.toNat = 12 ∨ (28 ≤ c.toNat ∧ c.toNat ≤ 31) ∨
    c.toNat = 0x85 ∨ c.toNat = 0xA0 ∨ c.toNat = 0x1680 ∨
    (0x2000 ≤ c.toNat ∧ c.toNat ≤ 0x200A) ∨ c.toNat = 0x2028 ∨
    c.toNat = 0x2029 ∨ c.toNat = 0x202F ∨ c.toNat = 0x205F ∨
    c.toNat = 0x3000)

/-- ASCII decimal digit (Python `\d`, ASCII fragment): `[0-9]`. -/
def isDig (c : Char) : Bool := decide (48 ≤ c.toNat ∧ c.toNat ≤ 57)

/-- ASCII letter, the exact char class `[A-Za-z]` of the source patterns. -/
def isAsciiLetter (c : Char) : Bool :=
  decide ((65 ≤ c.toNat ∧ c.toNat ≤ 90) ∨ (97 ≤ c.toNat ∧ c.toNat ≤ 122))

/-- Python `\w` (ASCII fragment): letters, digits and underscore. -/
def isWordChar (c : Char) : Bool := isAsciiLetter c || isDig c || c = '_'

/-- The char class `[A-Za-z\s]` used by the address parser. -/
def azsCls (c : Char) : Bool := isAsciiLetter c || pySpace c

/-- The char class `[\d,\.]` of the price patterns. -/
def priceCls (c : Char) : Bool := isDig c || c = ',' || c = '.'

/-- Python `str.lower` on the characters relevant here: ASCII letters and
the Latin-1 uppercase block `À`..`Þ` (excluding `×`). -/
def pyLowerChar (c : Char) : Char :=
  if 65 ≤ c.toNat ∧ c.toNat ≤ 90 then Char.ofNat (c.toNat + 32)
  else if 0xC0 ≤ c.toNat ∧ c.toNat ≤ 0xDE ∧ c.toNat ≠ 0xD7 then
    Char.ofNat (c.toNat + 32)
  else c

/-- Python `str.lower`. -/
def pyLower (cs : List Char) : List Char := cs.map pyLowerChar

/-- Python `str.strip()`: drop whitespace from both ends. -/
def pyStrip (cs : List Char) : List Char :=
  ((cs.dropWhile pySpace).reverse.dropWhile pySpace).reverse

/-- Python `str.strip()` on `String`. -/
def pyStripStr (s : String) : String := (pyStrip s.data).asString

/-- `re.sub(r'\s+', ' ', ·)`: each maximal whitespace run becomes one
space.  The boolean argument records whether the previous character was
part of a whitespace run. -/
def collapseAux : Bool → List Char → List Char
  | _, [] => []
  | inRun, c :: t =>
    if pySpace c then
      if inRun then collapseAux true t else ' ' :: collapseAux true t
    else c :: collapseAux false t

/-- `re.sub(r'\s+', ' ', ·)`. -/
def collapseWs (cs : List Char) : List Char := collapseAux false cs

/-- Python `pat in s` (substring containment) on char lists. -/
def containsSub (pat : List Char) : List Char → Bool
  | [] => pat.isEmpty
  | c :: t => pat.isPrefixOf (c :: t) || containsSub pat t

/-- Python `s.startswith('+')`. -/
def startsPlus (s : String) : Bool :=
  match s.data with
  | '+' :: _ => true
  | _ => false

/-- The six emoji / symbol code-point ranges removed by `clean_text` when
`remove_emojis` is set. -/
def inEmojiRanges (c : Char) : Bool :=
  decide ((0x1F600 ≤ c.toNat ∧ c.toNat ≤ 0x1F64F) ∨
    (0x1F300 ≤ c.toNat ∧ c.toNat ≤ 0x1F5FF) ∨
    (0x1F680 ≤ c.toNat ∧ c.toNat ≤ 0x1F6FF) ∨
    (0x1F1E0 ≤ c.toNat ∧ c.toNat ≤ 0x1F1FF) ∨
    (0x2702 ≤ c.toNat ∧ c.toNat ≤ 0x27B0) ∨
    (0x24C2 ≤ c.toNat ∧ c.toNat ≤ 0x1F251))

/-- `clean_text` of functions.py: NFC normalisation (modelled as the
identity), optional emoji stripping, whitespace collapsing, strip.  The
`except UnicodeEncodeError/UnicodeDecodeError` branch is unreachable in
the pure model (none of the performed operations raises on a valid
string) and is therefore not represented. -/
def clean_text (text : String) (remove_emojis : Bool := false) : String :=
  if text = "" then text
  else
    let t1 := if remove_emojis then text.data.filter (fun c => !inEmojiRanges c)
              else text.data
    (pyStrip (collapseWs t1)).asString

/-- Numeric value of a digit string (`int` on a `\d+` group). -/
def digitsVal (cs : List Char) : Nat :=
  cs.foldl (fun a c => a * 10 + (c.toNat - 48)) 0

/-! ## Embedded regular expressions

Each matcher below embeds one concrete pattern of functions.py.  Leftmost
search is implemented by trying every start position left to right; at a
fixed start the pattern pieces are deterministic after resolving the
backtracking as documented. -/

/-- Python `$` (no MULTILINE): zero-width match at the end of the string
or just before a final newline.  For a greedy `+`/`*` run anchored by `$`
this yields: the whole remainder matches the class, or everything but a
final `'\n'` does. -/
def eolRest (cls : Char → Bool) (rest : List Char) : Option (List Char) :=
  if rest ≠ [] ∧ rest.all cls then some rest
  else if 2 ≤ rest.length ∧ rest.getLast? = some '\n' ∧ rest.dropLast.all cls then
    some rest.dropLast
  else none

/-- `re.search(r'(\d{5})', line)`: leftmost window of five digits.
`\d{5}` is fixed-width, so the attempt at each position is
deterministic. -/
def search5 : List Char → Option (List Char)
  | [] => none
  | c :: t =>
    if ((c :: t).take 5).length = 5 ∧ ((c :: t).take 5).all isDig then
      some ((c :: t).take 5)
    else search5 t

/-- `re.search(r'\d{5}([A-Za-z\s]+)$', line)`, returning group 1.  At a
fixed start the greedy `[A-Za-z\s]+` anchored by `$` matches exactly when
the whole remainder after the five digits is in the class (or everything
but a final newline is); no other backtracking is possible. -/
def cityTrailSearch : List Char → Option (List Char)
  | [] => none
  | c :: t =>
    let cs := c :: t
    if ((cs.take 5).length = 5 ∧ (cs.take 5).all isDig : Prop) then
      match eolRest azsCls (cs.drop 5) with
      | some g => some g
      | none => cityTrailSearch t
    else cityTrailSearch t

/-- `re.match(r'^[A-Za-z\s]+$', s)` as a boolean. -/
def lettersSpacesMatch (cs : List Char) : Bool :=
  (eolRest azsCls cs).isSome

/-- `re.search(r'^(\d+)x$', s)` (and `re.match(r'^\d+x$', s)`): anchored
at position 0, so no search loop.  The greedy `\d+` can only stop where a
non-digit follows, hence it is the maximal digit run, which must be
followed by `x` and then `$`. -/
def qtyGroup (cs : List Char) : Option (List Char) :=
  let r := cs.takeWhile isDig
  if r = [] then none
  else
    match cs.drop r.length with
    | 'x' :: rest => if rest = [] ∨ rest = ['\n'] then some r else none
    | _ => none

/-- `re.match(r'^\d+x$', s)` as a boolean (same acceptance as
`qtyGroup`). -/
def qtyFullMatch (cs : List Char) : Bool := (qtyGroup cs).isSome

/-- One attempt of `€?\s*([\d,\.]+)` at a fixed position.  If the first
character is `€` the optional must consume it (otherwise `[\d,\.]+` fails
immediately on `€`); the `\s*` must then skip the maximal whitespace run
(shorter runs leave a whitespace character where a `[\d,\.]` is
required); the group is the maximal `[\d,\.]+` run.  The trailing
`\s*[€€]?` present in the line-item variant always matches (possibly
emptily) and never changes the group, so both price patterns share this
matcher. -/
def priceGroupAt (cs : List Char) : Option (List Char) :=
  let cs1 := match cs with
    | '€' :: t => t
    | _ => cs
  let t := cs1.dropWhile pySpace
  let g := t.takeWhile priceCls
  if g = [] then none else some g

/-- `re.search(r'€?\s*([\d,\.]+)\s*[€€]?', s)` /
`re.search(r'€?\s*([\d,\.]+)', s)`, returning group 1. -/
def priceSearch : List Char → Option (List Char)
  | [] => none
  | c :: t =>
    match priceGroupAt (c :: t) with
    | some g => some g
    | none => priceSearch t

/-- `str.replace(',', '.')` on the price group. -/
def commaToDot (c : Char) : Char := if c = ',' then '.' else c

/-- Python `float` restricted to the strings reaching it here (runs of
digits and dots after the comma replacement): defined iff the string
contains a digit and at most one dot; the value is the exact rational.
IEEE rounding is modelled by exact rationals. -/
def pyFloat? (cs : List Char) : Option ℚ :=
  if cs.all (fun c => isDig c || c = '.') ∧ cs.count '.' ≤ 1 ∧ cs.any isDig then
    let intPart := cs.takeWhile (fun c => c ≠ '.')
    let fracPart := (cs.dropWhile (fun c => c ≠ '.')).drop 1
    some ((digitsVal intPart : ℚ) + (digitsVal fracPart : ℚ) / (10 ^ fracPart.length))
  else none

/-- The char class `[°\s]` of the order-number pattern. -/
def degSpaceCls (c : Char) : Bool := c = '°' || pySpace c

/-- One attempt of `commande n[°\s]+(\d+)` (the pattern lowercased; the
text is lowercased before matching, modelling `re.IGNORECASE`).  The
greedy `[°\s]+` run can only be followed by a digit at its maximal
extent (shorter runs end on a `°`/whitespace character, which is not a
digit), so the attempt is deterministic. -/
def orderPrimaryAt (cs : List Char) : Option (List Char) :=
  if "commande n".data.isPrefixOf cs then
    let rest := cs.drop 10
    let run := rest.takeWhile degSpaceCls
    if run = [] then none
    else
      let ds := (rest.drop run.length).takeWhile isDig
      if ds = [] then none else some ds
  else none

/-- `re.search(r'Commande n[°\s]+(\d+)', text, re.IGNORECASE)` on the
lowercased text, returning group 1. -/
def orderPrimarySearch : List Char → Option (List Char)
  | [] => none
  | c :: t =>
    match orderPrimaryAt (c :: t) with
    | some g => some g
    | none => orderPrimarySearch t

/-- The char class `[:\s]` of the order-number fallback pattern. -/
def colonSpaceCls (c : Char) : Bool := c = ':' || pySpace c

/-- The lazy tail `.*?est[:\s]+(\d+)` of the fallback pattern: the lazy
`.*?` consumes as few (non-newline) characters as possible before
`est[:\s]+(\d+)` matches; as in `orderPrimaryAt` the greedy `[:\s]+` run
must be followed by a digit at its maximal extent. -/
def orderFbTail : List Char → Option (List Char)
  | [] => none
  | c :: t =>
    let cs := c :: t
    let attempt : Option (List Char) :=
      if "est".data.isPrefixOf cs then
        let rest := cs.drop 3
        let run := rest.takeWhile colonSpaceCls
        if run = [] then none
        else
          let ds := (rest.drop run.length).takeWhile isDig
          if ds = [] then none else some ds
      else none
    match attempt with
    | some g => some g
    | none => if c = '\n' then none else orderFbTail t

/-- One attempt of `num[ée]ro de commande.*?est[:\s]+(\d+)` (lowercased
text). -/
def orderFbAt (cs : List Char) : Option (List Char) :=
  if "num".data.isPrefixOf cs then
    match cs.drop 3 with
    | c :: rest =>
      if c = 'e' ∨ c = 'é' then
        if "ro de commande".data.isPrefixOf rest then
          orderFbTail (rest.drop 14)
        else none
      else none
    | [] => none
  else none

/-- `re.search(r'num[ée]ro de commande.*?est[:\s]+(\d+)', text,
re.IGNORECASE)` on the lowercased text, returning group 1. -/
def orderFbSearch : List Char → Option (List Char)
  | [] => none
  | c :: t =>
    match orderFbAt (c :: t) with
    | some g => some g
    | none => orderFbSearch t

/-! ## The document model

A parsed HTML document is a first-child / next-sibling tree: `elem tag
attrs child sib` is an element whose first child is `child` and whose
next sibling is `sib`.  This encoding keeps every traversal a structural
recursion.  Elements returned by the BeautifulSoup-style queries are
*detached* (their sibling pointer is `nil`), exactly as a BeautifulSoup
`Tag` denotes its own subtree. -/
inductive Dom where
  | nil : Dom
  | text : String → Dom → Dom
  | elem : String → List (String × String) → Dom → Dom → Dom
deriving DecidableEq

/-- Attribute lookup on an element. -/
def domAttr (n : Dom) (k : String) : Option String :=
  match n with
  | .elem _ attrs _ _ => (attrs.find? (fun a => a.1 = k)).map (fun a => a.2)
  | _ => none

/-- Tag of an element node. -/
def domTag (n : Dom) : Option String :=
  match n with
  | .elem t _ _ _ => some t
  | _ => none

/-- All elements of a node chain in document (pre-)order, each detached
from its siblings (BeautifulSoup `find_all` / `descendants` order). -/
def allElems : Dom → List Dom
  | .nil => []
  | .text _ sib => allElems sib
  | .elem t a c sib => .elem t a c .nil :: (allElems c ++ allElems sib)

/-- Descendant elements of a (detached) node, excluding the node itself
(BeautifulSoup `tag.find_all`). -/
def descElems : Dom → List Dom
  | .elem _ _ c _ => allElems c
  | _ => []

/-- Raw strings of all descendant text nodes, in document order. -/
def rawTexts : Dom → List String
  | .nil => []
  | .text s sib => s :: rawTexts sib
  | .elem _ _ c sib => rawTexts c ++ rawTexts sib

/-- BeautifulSoup `get_text()`: concatenation of all strings. -/
def getTextRaw (n : Dom) : String := String.join (rawTexts n)

/-- BeautifulSoup `get_text(strip=True)`: concatenation of the stripped
strings (whitespace-only strings vanish). -/
def getTextStripped (n : Dom) : String := String.join ((rawTexts n).map pyStripStr)

/-- Serialisation of attributes as ` k="v"` pairs in insertion order. -/
def attrsStr : List (String × String) → List Char
  | [] => []
  | (k, v) :: t => ' ' :: (k.data ++ '='.toString.data ++ '"'.toString.data ++ v.data ++ '"'.toString.data) ++ attrsStr t

/-- Python `str(tag)`: the HTML serialisation of the subtree.  Entity
escaping of `&`, `<`, `>` inside text is not modelled (no claim involves
those characters). -/
def strDom : Dom → List Char
  | .nil => []
  | .text s sib => s.data ++ strDom sib
  | .elem t a c sib =>
    '<' :: (t.data ++ attrsStr a) ++ '>' :: (strDom c ++ ('<' :: '/' :: t.data ++ ['>'])) ++ strDom sib

/-- Whitespace-separated words of an attribute value (HTML multi-valued
`class` attribute). -/
def splitWsAux (cur : List Char) : List Char → List (List Char)
  | [] => if cur = [] then [] else [cur.reverse]
  | c :: t =>
    if pySpace c then
      if cur = [] then splitWsAux [] t else cur.reverse :: splitWsAux [] t
    else splitWsAux (c :: cur) t

/-- BeautifulSoup `class_=cls` matching: the `class` attribute, split on
whitespace, contains `cls`. -/
def hasCssClass (n : Dom) (cls : String) : Bool :=
  match domAttr n "class" with
  | some v => (splitWsAux [] v.data).contains cls.data
  | none => false

/-- BeautifulSoup `style=re.compile(lit)` matching for a literal pattern:
the `style` attribute exists and contains the literal as a substring. -/
def styleHas (n : Dom) (lit : String) : Bool :=
  match domAttr n "style" with
  | some v => containsSub lit.data v.data
  | none => false

/-- Attribute equality filter (BeautifulSoup `role='listitem'` etc.). -/
def attrIs (n : Dom) (k v : String) : Bool := domAttr n k = some v

/-- `soup.find_all('table', class_='fluid')`. -/
def fluidTables (soup : Dom) : List Dom :=
  (allElems soup).filter (fun n => domTag n = some "table" && hasCssClass n "fluid")

/-- `soup.find_all('h2')`. -/
def h2Elems (soup : Dom) : List Dom :=
  (allElems soup).filter (fun n => domTag n = some "h2")

/-- `soup.find_all('tr')` over the whole document. -/
def trsAll (soup : Dom) : List Dom :=
  (allElems soup).filter (fun n => domTag n = some "tr")

/-- `tag.find_all('tr')` (descendants of a detached node). -/
def trsOf (n : Dom) : List Dom :=
  (descElems n).filter (fun m => domTag m = some "tr")

/-- `tag.find_all('td')`. -/
def tdsOf (n : Dom) : List Dom :=
  (descElems n).filter (fun m => domTag m = some "td")

/-- `tag.find('p')`: first descendant paragraph. -/
def firstP (n : Dom) : Option Dom :=
  (descElems n).find? (fun m => domTag m = some "p")

/-- `tag.find('p', style=re.compile(lit))`. -/
def firstPStyle (n : Dom) (lit : String) : Option Dom :=
  (descElems n).find? (fun m => domTag m = some "p" && styleHas m lit)

/-- `tag.find_all('p', style=re.compile(lit))`. -/
def allPStyle (n : Dom) (lit : String) : List Dom :=
  (descElems n).filter (fun m => domTag m = some "p" && styleHas m lit)

/-- `soup.find('table', role='listitem')`. -/
def listitemTable (soup : Dom) : Option Dom :=
  (allElems soup).find? (fun n => domTag n = some "table" && attrIs n "role" "listitem")

/-! ## Records produced by the extractors -/

/-- Result of `extract_restaurant_info` / `extract_client_info`. -/
structure PartyInfo where
  nom : Option String
  address : Option String
  city : Option String
  postal_code : Option String
  telephone : Option String
deriving DecidableEq

/-- The all-`None` party record. -/
def emptyParty : PartyInfo := ⟨none, none, none, none, none⟩

/-- Result of `parse_address_parts`. -/
structure AddressParts where
  address : Option String
  city : Option String
  postal_code : Option String
deriving DecidableEq

/-- Result of `extract_order_info`. -/
structure OrderInfo where
  numero : Option String
deriving DecidableEq

/-- One line item of `extract_items`. -/
structure Item where
  quantite : Option Nat
  nom : Option String
  options : List String
  prix : Option ℚ
deriving DecidableEq

/-- Result of `extract_totals`. -/
structure Totals where
  sous_total : Option ℚ
  frais_livraison : Option ℚ
  pourboire : Option ℚ
  credit : Option ℚ
  total : Option ℚ
deriving DecidableEq

/-- The all-`None` totals record. -/
def emptyTotals : Totals := ⟨none, none, none, none, none⟩

/-- Numeric content of the date record returned by
`extract_date_from_filename`.  The `strftime`-formatted string fields of
the Python dict are zero-padded renderings of these numbers and are not
separately modelled. -/
structure DateInfo where
  jour_semaine : String
  annee : Nat
  mois : Nat
  jour : Nat
  heure : Nat
  minute : Nat
  seconde : Nat
deriving DecidableEq

/-! ## Address parser (`parse_address_parts`) -/

/-- The postal-code loop of `parse_address_parts`: first remaining line
with a five-digit run wins and also supplies the optional same-line
trailing city (group of `\d{5}([A-Za-z\s]+)$`, stripped). -/
def postalScan : List String → Option (String × Option String)
  | [] => none
  | line :: rest =>
    match search5 line.data with
    | some pc =>
      some (pc.asString, (cityTrailSearch line.data).map (fun g => (pyStrip g).asString))
    | none => postalScan rest

/-- The fallback city loop of `parse_address_parts`: first remaining line
whose cleaned text has no five-digit run and is purely letters and
whitespace. -/
def fbCityScan : List String → Option String
  | [] => none
  | line :: rest =>
    let cl := clean_text line
    if (search5 cl.data).isSome then fbCityScan rest
    else if lettersSpacesMatch cl.data then some cl
    else fbCityScan rest

/-- The final city value of `parse_address_parts`: the trailing city of
the postal line, unless that is falsy (None or empty after stripping), in
which case the fallback scan result wins when it finds a line (otherwise
the falsy value is kept, as in the source). -/
def cityChoice (pr : Option (String × Option String)) (ls : List String) : Option String :=
  if pr.bind (fun a => a.2) = none ∨ pr.bind (fun a => a.2) = some "" then
    match fbCityScan ls with
    | some c => some c
    | none => pr.bind (fun a => a.2)
  else pr.bind (fun a => a.2)

/-- `parse_address_parts` of functions.py. -/
def parse_address_parts (address_lines : List String) : AddressParts :=
  match address_lines with
  | [] => ⟨none, none, none⟩
  | l :: ls =>
    ⟨some (clean_text l), cityChoice (postalScan ls) ls,
      (postalScan ls).map (fun a => a.1)⟩

/-! ## Date extractor (`extract_date_from_filename`)

The pattern is `(\w+)_(\d+)_(\w+)_(\d+)_(\d+)_(\d+)_(\d+)_\.html`.  Since
`_` is itself a word character, only the two `(\w+)` groups backtrack:
a `(\d+)_` piece is deterministic (a shorter digit run would leave a
digit where `_` is required), and a `(\w+)_` piece can only stop right
before an underscore inside the maximal word run.  Python's greedy `\w+`
tries those stops longest first. -/

/-- Deterministic `(\d+)_`: maximal nonempty digit run followed by an
underscore. -/
def parseNum (cs : List Char) : Option (List Char × List Char) :=
  let r := cs.takeWhile isDig
  if r = [] then none
  else
    match cs.drop r.length with
    | '_' :: rest => some (r, rest)
    | _ => none

/-- Candidate splits of a leading `(\w+)_`: positions of underscores
inside the maximal word run, emitted left to right (shortest group
first); `acc` is the reversed prefix consumed so far. -/
def splitsAux : List Char → List Char → List (List Char × List Char)
  | [], _ => []
  | c :: t, acc =>
    if isWordChar c then
      (if c = '_' ∧ acc ≠ [] then [(acc.reverse, t)] else []) ++ splitsAux t (c :: acc)
    else []

/-- Candidate `(\w+)_` splits in Python's greedy order (longest group
first). -/
def wordSplits (cs : List Char) : List (List Char × List Char) :=
  (splitsAux cs []).reverse

/-- The rigid tail `(\d+)_(\d+)_(\d+)_(\d+)_\.html` after the month
group (`re.search` does not require the match to end the string). -/
def dateTail (cs : List Char) : Option (List Char × List Char × List Char × List Char) :=
  (parseNum cs).bind fun p4 =>
    (parseNum p4.2).bind fun p5 =>
      (parseNum p5.2).bind fun p6 =>
        (parseNum p6.2).bind fun p7 =>
          if ".html".data.isPrefixOf p7.2 then some (p4.1, p5.1, p6.1, p7.1) else none

/-- The seven captured groups assembled from the chosen splits. -/
def dateGroups (s1 p2 s3 : List Char × List Char)
    (t4 : List Char × List Char × List Char × List Char) :
    List Char × List Char × List Char × List Char × List Char × List Char × List Char :=
  (s1.1, p2.1, s3.1, t4.1, t4.2.1, t4.2.2.1, t4.2.2.2)

/-- Attempt of the rigid tail after a month-group candidate `s3`. -/
def dateF3 (s1 p2 s3 : List Char × List Char) :
    Option (List Char × List Char × List Char × List Char × List Char × List Char × List Char) :=
  (dateTail s3.2).map (dateGroups s1 p2 s3)

/-- Greedy scan of the month-group candidates after the day group. -/
def dateF2 (s1 p2 : List Char × List Char) :
    Option (List Char × List Char × List Char × List Char × List Char × List Char × List Char) :=
  (wordSplits p2.2).findSome? (dateF3 s1 p2)

/-- Attempt after a weekday-group candidate `s1`. -/
def dateF1 (s1 : List Char × List Char) :
    Option (List Char × List Char × List Char × List Char × List Char × List Char × List Char) :=
  (parseNum s1.2).bind (dateF2 s1)

/-- One attempt of the filename pattern at a fixed position, with the
greedy backtracking over the two `(\w+)` groups. -/
def dateMatchAt (cs : List Char) :
    Option (List Char × List Char × List Char × List Char × List Char × List Char × List Char) :=
  (wordSplits cs).findSome? dateF1

/-- `re.search` of the filename pattern: leftmost matching position. -/
def dateSearch : List Char →
    Option (List Char × List Char × List Char × List Char × List Char × List Char × List Char)
  | [] => none
  | c :: t =>
    match dateMatchAt (c :: t) with
    | some r => some r
    | none => dateSearch t

/-- The fixed month table `mois_map`; `dict.get(·, 1)` defaults any other
token to 1. -/
def moisMap (g : List Char) : Nat :=
  if g = "Jan".data then 1 else if g = "Feb".data then 2
  else if g = "Mar".data then 3 else if g = "Apr".data then 4
  else if g = "May".data then 5 else if g = "Jun".data then 6
  else if g = "Jul".data then 7 else if g = "Aug".data then 8
  else if g = "Sep".data then 9 else if g = "Oct".data then 10
  else if g = "Nov".data then 11 else if g = "Dec".data then 12
  else 1

/-- Gregorian leap year, as used by `datetime`. -/
def isLeap (y : Nat) : Bool := y % 4 = 0 && (y % 100 ≠ 0 || y % 400 = 0)

/-- Days in a month, as validated by `datetime`. -/
def daysInMonth (y m : Nat) : Nat :=
  if m = 2 then (if isLeap y then 29 else 28)
  else if m = 4 ∨ m = 6 ∨ m = 9 ∨ m = 11 then 30
  else 31

/-- The range checks of the `datetime` constructor (whose `ValueError`
the source converts to `None`). -/
def validDateTime (y m d h mi s : Nat) : Bool :=
  decide (1 ≤ y ∧ y ≤ 9999 ∧ 1 ≤ d ∧ d ≤ daysInMonth y m ∧ h ≤ 23 ∧ mi ≤ 59 ∧ s ≤ 59)

/-- `extract_date_from_filename` of functions.py. -/
def extract_date_from_filename (filename : String) : Option DateInfo :=
  match dateSearch filename.data with
  | none => none
  | some (g1, g2, g3, g4, g5, g6, g7) =>
    let mois := moisMap g3
    let annee := digitsVal g4
    let jour := digitsVal g2
    let heure := digitsVal g5
    let minute := digitsVal g6
    let seconde := digitsVal g7
    if validDateTime annee mois jour heure minute seconde then
      some ⟨g1.asString, annee, mois, jour, heure, minute, seconde⟩
    else none

/-! ## Party extractors (`extract_restaurant_info`, `extract_client_info`) -/

/-- `table.find_all('p', style=re.compile(r'font-weight:bolder'))`. -/
def boldPs (t : Dom) : List Dom := allPStyle t "font-weight:bolder"

/-- `table.find_all('p', style=re.compile(r'color:#828585'))`. -/
def greyPs (t : Dom) : List Dom := allPStyle t "color:#828585"

/-- The serialisation literals tested with `in str(table)`. -/
def alignRightLit : List Char := "align=\"right\"".data

/-- `'align="left"'`. -/
def alignLeftLit : List Char := "align=\"left\"".data

/-- `'text-align:right'`. -/
def textAlignRightLit : List Char := "text-align:right".data

/-- The address/phone classification loop shared by both party
extractors: cleaned grey-paragraph texts starting with `+` set the phone
(last one wins), all other nonempty ones are collected as address
lines. -/
def splitAddrPhone (ps : List Dom) : List String × Option String :=
  ps.foldl
    (fun acc p =>
      let part := clean_text (getTextStripped p)
      if part ≠ "" ∧ ¬ startsPlus part then (acc.1 ++ [part], acc.2)
      else if part ≠ "" ∧ startsPlus part then (acc.1, some part)
      else acc)
    ([], none)

/-- Body shared by both extractors once a table is selected: name, phone
and the parsed address parts (the Python `dict.update` overwrites
`address`/`city`/`postal_code` even with `None`). -/
def buildParty (nom : String) (t : Dom) : PartyInfo :=
  let ap := splitAddrPhone (greyPs t)
  let parts := parse_address_parts ap.1
  ⟨some nom, parts.address, parts.city, parts.postal_code, ap.2⟩

/-- The table loop of `extract_restaurant_info`: first fluid table with a
bold paragraph whose cleaned text is nonempty and shorter than 100
characters, and whose serialisation contains `align="left"` or does not
contain `align="right"`. -/
def restLoop : List Dom → PartyInfo
  | [] => emptyParty
  | t :: ts =>
    match boldPs t with
    | [] => restLoop ts
    | p0 :: _ =>
      let text := clean_text (getTextStripped p0)
      if text ≠ "" ∧ text.length < 100 then
        if containsSub alignLeftLit (strDom t) ∨ ¬ containsSub alignRightLit (strDom t) then
          buildParty text t
        else restLoop ts
      else restLoop ts

/-- `extract_restaurant_info` of functions.py. -/
def extract_restaurant_info (soup : Dom) : PartyInfo :=
  restLoop (fluidTables soup)

/-- The table loop of `extract_client_info`: first fluid table whose
serialisation contains `align="right"` or `text-align:right` and that has
a bold paragraph with nonempty cleaned text (no length guard here). -/
def clientLoop : List Dom → PartyInfo
  | [] => emptyParty
  | t :: ts =>
    if containsSub alignRightLit (strDom t) ∨ containsSub textAlignRightLit (strDom t) then
      match boldPs t with
      | [] => clientLoop ts
      | p0 :: _ =>
        let nom := clean_text (getTextStripped p0)
        if nom ≠ "" then buildParty nom t else clientLoop ts
    else clientLoop ts

/-- Python `str.replace` (all non-overlapping occurrences, left to
right).  The fuel argument, instantiated with the string length, only
drives the termination of the skip after a hit. -/
def replaceFuel (pat repl : List Char) : Nat → List Char → List Char
  | _, [] => []
  | 0, cs => cs
  | fuel + 1, c :: t =>
    if pat ≠ [] ∧ pat.isPrefixOf (c :: t) then
      repl ++ replaceFuel pat repl fuel ((c :: t).drop pat.length)
    else c :: replaceFuel pat repl fuel t

/-- Python `s.replace(pat, repl)`. -/
def strReplace (s pat repl : String) : String :=
  (replaceFuel pat.data repl.data s.data.length s.data).asString

/-- The heading fallback of `extract_client_info`: first `h2` whose
cleaned text contains `Excellent choix`; the name is the text with
`Excellent choix,` removed, stripped, and cleaned again. -/
def h2NameScan : List Dom → Option String
  | [] => none
  | h :: t =>
    let txt := clean_text (getTextStripped h)
    if containsSub "Excellent choix".data txt.data then
      some (clean_text (pyStripStr (strReplace txt "Excellent choix," "")))
    else h2NameScan t

/-- `extract_client_info` of functions.py (`client_info['nom']` is falsy
exactly when it is `None` or the empty string). -/
def extract_client_info (soup : Dom) : PartyInfo :=
  if (clientLoop (fluidTables soup)).nom = none ∨
      (clientLoop (fluidTables soup)).nom = some "" then
    match h2NameScan (h2Elems soup) with
    | some n => { clientLoop (fluidTables soup) with nom := some n }
    | none => clientLoop (fluidTables soup)
  else clientLoop (fluidTables soup)

/-! ## Order-number extractor (`extract_order_info`) -/

/-- The heading loop: first `h2` whose cleaned, lowercased text matches
the primary pattern. -/
def h2OrderScan : List Dom → Option String
  | [] => none
  | h :: t =>
    match orderPrimarySearch (pyLower (clean_text (getTextStripped h)).data) with
    | some ds => some ds.asString
    | none => h2OrderScan t

/-- `extract_order_info` of functions.py (`order_info['numero']` is falsy
exactly when it is `None` or the empty string). -/
def extract_order_info (soup : Dom) : OrderInfo :=
  if h2OrderScan (h2Elems soup) = none ∨ h2OrderScan (h2Elems soup) = some "" then
    match orderFbSearch (pyLower (clean_text (getTextRaw soup)).data) with
    | some ds => ⟨some ds.asString⟩
    | none => ⟨h2OrderScan (h2Elems soup)⟩
  else ⟨h2OrderScan (h2Elems soup)⟩

/-! ## Line-item extractor (`extract_items`) -/

/-- Processing of one `tr` of the listitem table; `none` means the row
contributes no item (fewer than two cells, or no accepted name). -/
def itemOfRow (row : Dom) : Option Item :=
  match tdsOf row with
  | c0 :: c1 :: rest =>
    let quantite : Option Nat :=
      match firstP c0 with
      | some p =>
        match qtyGroup (clean_text (getTextStripped p)).data with
        | some ds => some (digitsVal ds)
        | none => none
      | none => none
    let nomOpt : Option String :=
      match firstPStyle c1 "color:#000001" with
      | some p =>
        let t := clean_text (getTextStripped p)
        if t ≠ "" ∧ qtyFullMatch t.data = false ∧ 3 < t.length then some t else none
      | none => none
    let prix : Option ℚ :=
      match rest.head? with
      | some c2 =>
        match firstPStyle c2 "text-align:right" with
        | some p =>
          match priceSearch (clean_text (getTextStripped p)).data with
          | some g => pyFloat? (g.map commaToDot)
          | none => none
        | none => none
      | none => none
    match nomOpt with
    | some nom =>
      let options := (greyPs c1).foldl
        (fun acc p =>
          let ot := clean_text (getTextStripped p)
          if ot ≠ "" ∧ ot ≠ nom then acc ++ [ot] else acc)
        []
      if nom = "" then none else some ⟨quantite, some nom, options, prix⟩
    | none => none
  | _ => none

/-- `extract_items` of functions.py. -/
def extract_items (soup : Dom) : List Item :=
  match listitemTable soup with
  | none => []
  | some t => (trsOf t).filterMap itemOfRow

/-! ## Totals extractor (`extract_totals`) -/

/-- Label/price extraction from one `tr`: at least two cells, each with a
paragraph, and a price that parses; returns the label paragraph (for the
style test), its cleaned text, and the parsed price. -/
def rowLabelPrice (tr : Dom) : Option (Dom × String × ℚ) :=
  match tdsOf tr with
  | t0 :: t1 :: _ =>
    match firstP t0, firstP t1 with
    | some lp, some pp =>
      let labelText := clean_text (getTextStripped lp)
      let priceText := clean_text (getTextStripped pp)
      match priceSearch priceText.data with
      | some g =>
        match pyFloat? (g.map commaToDot) with
        | some v => some (lp, labelText, v)
        | none => none
      | none => none
    | _, _ => none
  | _ => none

/-- The `elif` label chain of `extract_totals`. -/
def applyLabel (acc : Totals) (lp : Dom) (lt : String) (v : ℚ) : Totals :=
  if containsSub "Sous-total".data lt.data then { acc with sous_total := some v }
  else if containsSub "Frais de livraison".data lt.data then { acc with frais_livraison := some v }
  else if containsSub "Pourboire".data lt.data then { acc with pourboire := some v }
  else if containsSub "Crédit".data lt.data then { acc with credit := some v }
  else if containsSub "Total".data lt.data ∧
      (containsSub "class=\"total\"".data (strDom lp) ∨ containsSub "font-size:34px".data (strDom lp)) then
    { acc with total := some v }
  else acc

/-- Processing of one scanned `tr` by `extract_totals`. -/
def totalsStep (acc : Totals) (tr : Dom) : Totals :=
  match rowLabelPrice tr with
  | some (lp, lt, v) => applyLabel acc lp lt v
  | none => acc

/-- `extract_totals` of functions.py. -/
def extract_totals (soup : Dom) : Totals :=
  (trsAll soup).foldl totalsStep emptyTotals

/-! ## Specification-side predicates

These are written from the spec's wording and compared with the
implementation; the equivalences below are the refinement content of the
corresponding claims. -/

/-- Spec-side: a table is "flagged right-aligned" when its serialisation
carries the `align="right"` attribute text or the `text-align:right`
inline style. -/
def rightFlagged (t : Dom) : Bool :=
  containsSub alignRightLit (strDom t) || containsSub textAlignRightLit (strDom t)

/-- Per-table selection predicate of the restaurant loop. -/
def restTakes (t : Dom) : Bool :=
  match boldPs t with
  | [] => false
  | p0 :: _ =>
    decide ((clean_text (getTextStripped p0) ≠ "" ∧
        (clean_text (getTextStripped p0)).length < 100) ∧
      (containsSub alignLeftLit (strDom t) ∨ ¬ containsSub alignRightLit (strDom t)))

/-- Per-table selection predicate of the customer loop. -/
def clientTakes (t : Dom) : Bool :=
  match boldPs t with
  | [] => false
  | p0 :: _ =>
    decide ((containsSub alignRightLit (strDom t) ∨
        containsSub textAlignRightLit (strDom t)) ∧
      clean_text (getTextStripped p0) ≠ "")

/-- The party record built from a selected table (both loops build it the
same way). -/
def partyFromTable (t : Dom) : PartyInfo :=
  match boldPs t with
  | p0 :: _ => buildParty (clean_text (getTextStripped p0)) t
  | [] => emptyParty

/-- Spec-side "first 5-digit run of a line", phrased by index: the window
at the least position whose five characters are all digits. -/
def firstRun5 (cs : List Char) : Option (List Char) :=
  (List.range cs.length).findSome? fun i =>
    if 5 ≤ cs.length - i ∧ ((cs.drop i).take 5).all isDig then
      some ((cs.drop i).take 5)
    else none

/-! ## Generic helper lemmas -/

theorem takeWhile_append_all {p : Char → Bool} (xs ys : List Char)
    (h : ∀ c ∈ xs, p c = true) :
    (xs ++ ys).takeWhile p = xs ++ ys.takeWhile p := by
  induction xs with
  | nil => simp
  | cons c t ih =>
    have hc := h c (by simp)
    simp only [List.cons_append, List.takeWhile_cons, hc]
    simp [ih fun a ha => h a (by simp [ha])]

theorem takeWhile_all_of_all {p : Char → Bool} (xs : List Char)
    (h : ∀ c ∈ xs, p c = true) : xs.takeWhile p = xs := by
  induction xs with
  | nil => rfl
  | cons c t ih =>
    simp only [List.takeWhile_cons, h c (by simp)]
    simp [ih fun a ha => h a (by simp [ha])]

theorem takeWhile_cons_neg {p : Char → Bool} {c : Char} (t : List Char)
    (h : p c = false) : (c :: t).takeWhile p = [] := by
  simp [List.takeWhile_cons, h]

theorem isPrefixOf_append_self (xs ys : List Char) :
    xs.isPrefixOf (xs ++ ys) = true := by
  induction xs with
  | nil => simp [List.isPrefixOf]
  | cons c t ih => simp [List.isPrefixOf, ih]

/-- A digit is not an ASCII letter. -/
theorem isDig_not_letter {c : Char} (h : isDig c = true) :
    isAsciiLetter c = false := by
  simp only [isDig, decide_eq_true_eq] at h
  simp only [isAsciiLetter, decide_eq_false_iff_not]
  omega

/-- An ASCII letter is not a digit. -/
theorem isLetter_not_dig {c : Char} (h : isAsciiLetter c = true) :
    isDig c = false := by
  simp only [isAsciiLetter, decide_eq_true_eq] at h
  simp only [isDig, decide_eq_false_iff_not]
  omega

/-- An ASCII letter is a word character. -/
theorem isLetter_word {c : Char} (h : isAsciiLetter c = true) :
    isWordChar c = true := by
  simp [isWordChar, h]

/-- A digit is a word character. -/
theorem isDig_word {c : Char} (h : isDig c = true) :
    isWordChar c = true := by
  simp [isWordChar, h]

/-- An ASCII letter is not an underscore. -/
theorem isLetter_ne_underscore {c : Char} (h : isAsciiLetter c = true) :
    c ≠ '_' := by
  rintro rfl
  exact absurd h (by decide)

/-- A digit is not an underscore. -/
theorem isDig_ne_underscore {c : Char} (h : isDig c = true) : c ≠ '_' := by
  rintro rfl
  exact absurd h (by decide)

/-- A nonempty digit run renders to a nonempty string. -/
theorem asString_ne_empty {cs : List Char} (h : cs ≠ []) :
    cs.asString ≠ "" := by
  intro he
  exact h (congrArg String.data he)

/-! ## Loop characterisations for the party extractors -/

/-- The restaurant table loop selects exactly the first table satisfying
`restTakes` and builds the party record from it. -/
theorem restLoop_eq_find (ts : List Dom) :
    restLoop ts = ((ts.find? restTakes).elim emptyParty partyFromTable) := by
  induction ts with
  | nil => rfl
  | cons t ts ih =>
    rw [restLoop, List.find?]
    cases hb : boldPs t with
    | nil =>
      have hr : restTakes t = false := by rw [restTakes, hb]
      simp [hr, ih]
    | cons p0 ps =>
      by_cases hc : (clean_text (getTextStripped p0) ≠ "" ∧
          (clean_text (getTextStripped p0)).length < 100)
      · cases hL : containsSub alignLeftLit (strDom t) with
        | true =>
          have hr : restTakes t = true := by
            rw [restTakes, hb]
            exact decide_eq_true ⟨hc, Or.inl hL⟩
          simp only [hr]
          simp [hc, hL, partyFromTable, hb]
        | false =>
          cases hR : containsSub alignRightLit (strDom t) with
          | false =>
            have hr : restTakes t = true := by
              rw [restTakes, hb]
              exact decide_eq_true ⟨hc, Or.inr (by simp [hR])⟩
            simp only [hr]
            simp [hc, hL, hR, partyFromTable, hb]
          | true =>
            have hr : restTakes t = false := by
              rw [restTakes, hb]
              refine decide_eq_false fun hh => ?_
              rcases hh.2 with h | h
              · rw [hL] at h
                exact Bool.false_ne_true h
              · exact h hR
            simp only [hr]
            simp [hc, hL, hR, ih]
      · have hr : restTakes t = false := by
          rw [restTakes, hb]
          exact decide_eq_false fun hh => hc hh.1
        simp only [hr]
        simp [hc, ih]

/-- The customer table loop selects exactly the first table satisfying
`clientTakes` and builds the party record from it. -/
theorem clientLoop_eq_find (ts : List Dom) :
    clientLoop ts = ((ts.find? clientTakes).elim emptyParty partyFromTable) := by
  induction ts with
  | nil => rfl
  | cons t ts ih =>
    rw [clientLoop, List.find?]
    by_cases ha : (containsSub alignRightLit (strDom t) ∨
        containsSub textAlignRightLit (strDom t))
    · cases hb : boldPs t with
      | nil =>
        have hr : clientTakes t = false := by rw [clientTakes, hb]
        simp [hr, ha, ih]
      | cons p0 ps =>
        by_cases hn : clean_text (getTextStripped p0) ≠ ""
        · have hr : clientTakes t = true := by
            rw [clientTakes, hb]
            exact decide_eq_true ⟨ha, hn⟩
          simp only [hr]
          simp [ha, hn, partyFromTable, hb]
        · have hr : clientTakes t = false := by
            rw [clientTakes, hb]
            exact decide_eq_false fun hh => hn hh.2
          simp only [hr]
          simp [ha, hn, ih]
    · have hr : clientTakes t = false := by
        rw [clientTakes]
        cases hb : boldPs t with
        | nil => rfl
        | cons p0 ps => exact decide_eq_false fun hh => ha hh.1
      simp only [hr]
      simp [ha, ih]

/-! ## Address-parser lemmas -/

/-- The recursive leftmost search of a five-digit window agrees with the
index-based "first 5-digit run" specification. -/
theorem firstRun5_shift (c : Char) (t : List Char) :
    List.findSome? ((fun i =>
      if 5 ≤ (c :: t).length - i ∧ (((c :: t).drop i).take 5).all isDig then
        some (((c :: t).drop i).take 5)
      else none) ∘ Nat.succ) (List.range t.length) = firstRun5 t := by
  rw [firstRun5]
  congr 1
  funext i
  simp only [Function.comp_apply, List.length_cons, List.drop_succ_cons,
    Nat.add_sub_add_right, Nat.succ_sub_succ]

theorem search5_eq_firstRun5 (cs : List Char) : search5 cs = firstRun5 cs := by
  induction cs with
  | nil => rfl
  | cons c t ih =>
    rw [search5, firstRun5, List.length_cons, List.range_succ_eq_map,
      List.findSome?_cons, List.findSome?_map]
    by_cases h : ((c :: t).take 5).length = 5 ∧ ((c :: t).take 5).all isDig
    · have h5 : 5 ≤ t.length + 1 := by
        have := h.1
        rw [List.length_take, List.length_cons] at this
        omega
      rw [if_pos h]
      have hz : (if 5 ≤ t.length + 1 - 0 ∧ (((c :: t).drop 0).take 5).all isDig then
          some (((c :: t).drop 0).take 5) else none) = some ((c :: t).take 5) := by
        rw [if_pos ⟨by omega, by simpa using h.2⟩]
        simp
      rw [hz]
    · have hneg : ¬ (5 ≤ t.length + 1 - 0 ∧ (((c :: t).drop 0).take 5).all isDig) := by
        intro hh
        apply h
        constructor
        · rw [List.length_take, List.length_cons]
          omega
        · simpa using hh.2
      rw [if_neg h, if_neg hneg, ih]
      have := firstRun5_shift c t
      rw [List.length_cons] at this
      rw [this]

/-- The postal loop returns the postal code of the first later line that
has a five-digit run. -/
theorem postalScan_fst (ls : List String) :
    (postalScan ls).map (fun a => a.1) =
      ls.findSome? (fun line => (firstRun5 line.data).map List.asString) := by
  induction ls with
  | nil => rfl
  | cons l t ih =>
    rw [postalScan, List.findSome?_cons, ← search5_eq_firstRun5]
    cases h : search5 l.data with
    | some pc => simp [h]
    | none => simp [h, ih]

/-- The postal loop stops at the first line with a five-digit run and
pairs it with that line's trailing-city group. -/
theorem postalScan_first (ls : List String) (line : String)
    (h : ls.find? (fun s => (search5 s.data).isSome) = some line) :
    postalScan ls =
      some ((search5 line.data).getD [] |>.asString,
        (cityTrailSearch line.data).map (fun g => (pyStrip g).asString)) := by
  induction ls with
  | nil => simp at h
  | cons l t ih =>
    rw [List.find?] at h
    rw [postalScan]
    cases hs : search5 l.data with
    | some pc =>
      rw [hs] at h
      simp at h
      subst h
      simp [hs]
    | none =>
      rw [hs] at h
      simp at h
      exact ih h

/-! ## Character-set lemmas for extracted cities -/

/-- A group produced by `eolRest` consists of class characters only. -/
theorem eolRest_chars {cls : Char → Bool} {rest g : List Char}
    (h : eolRest cls rest = some g) : ∀ c ∈ g, cls c = true := by
  rw [eolRest] at h
  split_ifs at h with h1 h2
  · cases h
    exact List.all_eq_true.mp h1.2
  · cases h
    exact List.all_eq_true.mp h2.2.2

/-- A string accepted by `^[A-Za-z\s]+$` consists of letters and
whitespace only (a final newline accepted by `$` is itself whitespace). -/
theorem lettersSpacesMatch_chars {cs : List Char}
    (h : lettersSpacesMatch cs = true) : ∀ c ∈ cs, azsCls c = true := by
  rw [lettersSpacesMatch] at h
  cases hr : eolRest azsCls cs with
  | none => rw [hr] at h; cases h
  | some g =>
    rw [eolRest] at hr
    split_ifs at hr with h1 h2
    · exact List.all_eq_true.mp h1.2
    · intro c hc
      have hlast := h2.2.1
      have hne : cs ≠ [] := by
        intro he
        rw [he] at hlast
        simp at hlast
      have hsplit := List.dropLast_append_getLast hne
      have hgl : cs.getLast hne = '\n' := by
        have := List.getLast?_eq_getLast cs hne
        rw [this] at hlast
        exact Option.some_injective _ hlast
      rw [← hsplit] at hc
      rcases List.mem_append.mp hc with hc | hc
      · exact List.all_eq_true.mp h2.2.2 c hc
      · have : c = '\n' := by
          rw [hgl] at hc
          simpa using hc
        subst this
        rfl

/-- The trailing-city group of `cityTrailSearch` consists of letters and
whitespace only. -/
theorem cityTrailSearch_chars {cs g : List Char}
    (h : cityTrailSearch cs = some g) : ∀ c ∈ g, azsCls c = true := by
  induction cs with
  | nil => cases h
  | cons c t ih =>
    rw [cityTrailSearch] at h
    split_ifs at h with h1
    · cases he : eolRest azsCls ((c :: t).drop 5) with
      | some g2 =>
        rw [he] at h
        cases h
        exact eolRest_chars he
      | none =>
        rw [he] at h
        exact ih h
    · exact ih h

/-- Stripping preserves membership. -/
theorem pyStrip_mem {cs : List Char} {c : Char} (h : c ∈ pyStrip cs) : c ∈ cs := by
  rw [pyStrip] at h
  rw [List.mem_reverse] at h
  have h2 := (List.dropWhile_sublist (l := (cs.dropWhile pySpace).reverse) pySpace).mem h
  rw [List.mem_reverse] at h2
  exact (List.dropWhile_sublist (l := cs) pySpace).mem h2

/-- The fallback city consists of letters and whitespace only. -/
theorem fbCityScan_chars {ls : List String} {c : String}
    (h : fbCityScan ls = some c) : ∀ ch ∈ c.data, azsCls ch = true := by
  induction ls with
  | nil => cases h
  | cons l t ih =>
    rw [fbCityScan] at h
    split_ifs at h with h1 h2
    · exact ih h
    · cases h
      exact lettersSpacesMatch_chars h2
    · exact ih h

/-! ## Totals-extractor lemmas -/

/-- A scanned row writes the subtotal field (label matched and price
parsed). -/
def setsSous (tr : Dom) : Bool :=
  match rowLabelPrice tr with
  | some x => containsSub "Sous-total".data x.2.1.data
  | none => false

/-- The condition under which the `elif` chain reaches and satisfies the
grand-total branch. -/
def totalBranchCond (lp : Dom) (lt : String) : Bool :=
  decide (¬ containsSub "Sous-total".data lt.data = true ∧
    ¬ containsSub "Frais de livraison".data lt.data = true ∧
    ¬ containsSub "Pourboire".data lt.data = true ∧
    ¬ containsSub "Crédit".data lt.data = true ∧
    (containsSub "Total".data lt.data ∧
      (containsSub "class=\"total\"".data (strDom lp) ∨
        containsSub "font-size:34px".data (strDom lp))))

/-- A scanned row writes the grand-total field. -/
def setsTotal (tr : Dom) : Bool :=
  match rowLabelPrice tr with
  | some x => totalBranchCond x.1 x.2.1
  | none => false

/-- A `Sous-total` label writes the subtotal and nothing else. -/
theorem applyLabel_sous {lp : Dom} {lt : String} (acc : Totals) (v : ℚ)
    (h : containsSub "Sous-total".data lt.data = true) :
    applyLabel acc lp lt v = { acc with sous_total := some v } := by
  rw [applyLabel, if_pos h]

/-- If the applied label changes the grand-total field, the label
contained `Total` and the label node carried one of the style markers. -/
theorem applyLabel_total_changed {lp : Dom} {lt : String} {acc : Totals} {v : ℚ}
    (h : (applyLabel acc lp lt v).total ≠ acc.total) :
    containsSub "Total".data lt.data = true ∧
      (containsSub "class=\"total\"".data (strDom lp) = true ∨
        containsSub "font-size:34px".data (strDom lp) = true) := by
  rw [applyLabel] at h
  split_ifs at h with h1 h2 h3 h4 h5
  · simp at h
  · simp at h
  · simp at h
  · simp at h
  · exact h5
  · simp at h

/-- The total branch writes the grand total. -/
theorem applyLabel_totalBranch {lp : Dom} {lt : String} (acc : Totals) (v : ℚ)
    (h : totalBranchCond lp lt = true) :
    applyLabel acc lp lt v = { acc with total := some v } := by
  rw [totalBranchCond, decide_eq_true_eq] at h
  obtain ⟨h1, h2, h3, h4, h5⟩ := h
  rw [applyLabel, if_neg h1, if_neg h2, if_neg h3, if_neg h4, if_pos h5]

/-- A row that does not set the subtotal leaves it unchanged. -/
theorem totalsStep_sous_preserved {tr : Dom} (acc : Totals)
    (h : setsSous tr = false) :
    (totalsStep acc tr).sous_total = acc.sous_total := by
  cases hr : rowLabelPrice tr with
  | none => rw [totalsStep, hr]
  | some x =>
    obtain ⟨lp, lt, v⟩ := x
    have hstep : totalsStep acc tr = applyLabel acc lp lt v := by rw [totalsStep, hr]
    simp only [setsSous, hr] at h
    rw [hstep, applyLabel, if_neg (by simp [h])]
    split_ifs <;> rfl

/-- A row that does not set the grand total leaves it unchanged. -/
theorem totalsStep_total_preserved {tr : Dom} (acc : Totals)
    (h : setsTotal tr = false) :
    (totalsStep acc tr).total = acc.total := by
  cases hr : rowLabelPrice tr with
  | none => rw [totalsStep, hr]
  | some x =>
    obtain ⟨lp, lt, v⟩ := x
    have hstep : totalsStep acc tr = applyLabel acc lp lt v := by rw [totalsStep, hr]
    simp only [setsTotal, hr, totalBranchCond] at h
    rw [hstep, applyLabel]
    split_ifs with h1 h2 h3 h4 h5
    · rfl
    · rfl
    · rfl
    · rfl
    · exfalso
      rw [decide_eq_false_iff_not] at h
      exact h ⟨by simp [h1], by simp [h2], by simp [h3], by simp [h4], h5⟩
    · rfl

/-- A matching subtotal row overwrites the field regardless of the
accumulator (there is no first-match lock). -/
theorem totalsStep_sous_set {tr : Dom} {lp : Dom} {lt : String} {v : ℚ} (acc : Totals)
    (hr : rowLabelPrice tr = some (lp, lt, v))
    (h : containsSub "Sous-total".data lt.data = true) :
    (totalsStep acc tr).sous_total = some v := by
  have hstep : totalsStep acc tr = applyLabel acc lp lt v := by rw [totalsStep, hr]
  rw [hstep, applyLabel_sous acc v h]

/-- A row satisfying the total branch overwrites the grand total
regardless of the accumulator. -/
theorem totalsStep_total_set {tr : Dom} {lp : Dom} {lt : String} {v : ℚ} (acc : Totals)
    (hr : rowLabelPrice tr = some (lp, lt, v))
    (h : totalBranchCond lp lt = true) :
    (totalsStep acc tr).total = some v := by
  have hstep : totalsStep acc tr = applyLabel acc lp lt v := by rw [totalsStep, hr]
  rw [hstep, applyLabel_totalBranch acc v h]

/-- Folding rows none of which sets the subtotal preserves it. -/
theorem foldl_sous_preserved (rows : List Dom) (acc : Totals)
    (h : ∀ tr ∈ rows, setsSous tr = false) :
    (rows.foldl totalsStep acc).sous_total = acc.sous_total := by
  induction rows generalizing acc with
  | nil => rfl
  | cons r rs ih =>
    rw [List.foldl_cons]
    rw [ih (totalsStep acc r) (fun tr htr => h tr (by simp [htr]))]
    exact totalsStep_sous_preserved acc (h r (by simp))

/-- Folding rows none of which sets the grand total preserves it. -/
theorem foldl_total_preserved (rows : List Dom) (acc : Totals)
    (h : ∀ tr ∈ rows, setsTotal tr = false) :
    (rows.foldl totalsStep acc).total = acc.total := by
  induction rows generalizing acc with
  | nil => rfl
  | cons r rs ih =>
    rw [List.foldl_cons]
    rw [ih (totalsStep acc r) (fun tr htr => h tr (by simp [htr]))]
    exact totalsStep_total_preserved acc (h r (by simp))

/-! ## Line-item lemmas -/

/-- Name acceptance on the second cell: first `color:#000001` paragraph,
cleaned text nonempty, not itself a quantity pattern, longer than three
characters. -/
def nameAccept (c1 : Dom) : Bool :=
  match firstPStyle c1 "color:#000001" with
  | some p =>
    decide (clean_text (getTextStripped p) ≠ "" ∧
      qtyFullMatch (clean_text (getTextStripped p)).data = false ∧
      3 < (clean_text (getTextStripped p)).length)
  | none => false

/-- The accepted name of the second cell, when any. -/
def acceptedName (c1 : Dom) : Option String :=
  match firstPStyle c1 "color:#000001" with
  | some p =>
    if clean_text (getTextStripped p) ≠ "" ∧
        qtyFullMatch (clean_text (getTextStripped p)).data = false ∧
        3 < (clean_text (getTextStripped p)).length then
      some (clean_text (getTextStripped p))
    else none
  | none => none

/-- A row with at least two cells contributes an item exactly when the
name is accepted, and the item's name is the accepted name. -/
theorem itemOfRow_name (row c0 c1 : Dom) (rest : List Dom)
    (h : tdsOf row = c0 :: c1 :: rest) :
    (itemOfRow row).isSome = nameAccept c1 ∧
      ∀ it, itemOfRow row = some it → it.nom = acceptedName c1 := by
  rw [itemOfRow, h, nameAccept, acceptedName]
  cases hp : firstPStyle c1 "color:#000001" with
  | none => simp [hp]
  | some p =>
    simp only [hp]
    by_cases hc : (clean_text (getTextStripped p) ≠ "" ∧
        qtyFullMatch (clean_text (getTextStripped p)).data = false ∧
        3 < (clean_text (getTextStripped p)).length)
    · constructor
      · simp only [if_pos hc]
        simp [hc.1, hc.2.1, hc.2.2]
      · intro it hit
        simp only [if_pos hc] at hit ⊢
        rw [if_neg hc.1] at hit
        cases hit
        rfl
    · constructor
      · simp only [if_neg hc]
        exact ((decide_eq_false hc).symm)
      · intro it hit
        simp only [if_neg hc] at hit
        cases hit

/-! ## Order-number lemmas -/

/-- Lowercasing fixes digits. -/
theorem pyLowerChar_dig {c : Char} (h : isDig c = true) : pyLowerChar c = c := by
  simp only [isDig, decide_eq_true_eq] at h
  rw [pyLowerChar, if_neg (by omega), if_neg (by omega)]

/-- Lowercasing fixes `°` and whitespace. -/
theorem pyLowerChar_degSpace {c : Char} (h : degSpaceCls c = true) :
    pyLowerChar c = c := by
  rw [degSpaceCls, Bool.or_eq_true] at h
  rcases h with h | h
  · rw [decide_eq_true_eq] at h
    subst h
    rfl
  · rw [pySpace, decide_eq_true_eq] at h
    rw [pyLowerChar, if_neg (by omega), if_neg (by omega)]

/-- A digit is neither `°` nor whitespace. -/
theorem isDig_not_degSpace {c : Char} (h : isDig c = true) :
    degSpaceCls c = false := by
  simp only [isDig, decide_eq_true_eq] at h
  rw [degSpaceCls, Bool.or_eq_false_iff]
  constructor
  · rw [decide_eq_false_iff_not]
    intro he
    subst he
    exact absurd h (by decide)
  · rw [pySpace, decide_eq_false_iff_not]
    omega

/-- The primary order pattern on a heading of the shape
`commande n<sep><digits>`: the digit group is returned. -/
theorem orderPrimaryAt_mk (sep ds : List Char)
    (hs : sep ≠ []) (hsep : ∀ c ∈ sep, degSpaceCls c = true)
    (hd : ds ≠ []) (hds : ∀ c ∈ ds, isDig c = true) :
    orderPrimaryAt ("commande n".data ++ (sep ++ ds)) = some ds := by
  rw [orderPrimaryAt, if_pos (by exact isPrefixOf_append_self _ _)]
  have hdrop : ("commande n".data ++ (sep ++ ds)).drop 10 = sep ++ ds := by
    have h10 : (10 : Nat) = "commande n".data.length := by decide
    rw [h10, List.drop_left]
  have hrun : (sep ++ ds).takeWhile degSpaceCls = sep := by
    rw [takeWhile_append_all sep ds hsep]
    cases ds with
    | nil => simp
    | cons d t =>
      rw [takeWhile_cons_neg t (isDig_not_degSpace (hds d (by simp)))]
      simp
  have hdrop2 : (sep ++ ds).drop sep.length = ds := List.drop_left sep ds
  simp only [hdrop, hrun, hdrop2, takeWhile_all_of_all ds hds]
  rw [if_neg (by simp [hs]), if_neg (by simp [hd])]

/-- The search for the primary order pattern on such a heading succeeds
at position zero. -/
theorem orderPrimarySearch_mk (sep ds : List Char)
    (hs : sep ≠ []) (hsep : ∀ c ∈ sep, degSpaceCls c = true)
    (hd : ds ≠ []) (hds : ∀ c ∈ ds, isDig c = true) :
    orderPrimarySearch ("commande n".data ++ (sep ++ ds)) = some ds := by
  have h1 := orderPrimaryAt_mk sep ds hs hsep hd hds
  have hcons : "commande n".data ++ (sep ++ ds) =
      'c' :: ("ommande n".data ++ (sep ++ ds)) := rfl
  rw [hcons] at h1 ⊢
  rw [orderPrimarySearch, h1]

/-- Lowercasing a `commande n<sep><digits>` heading shape is the
identity on the separator and digits. -/
theorem pyLower_mk (sep ds : List Char)
    (hsep : ∀ c ∈ sep, degSpaceCls c = true)
    (hds : ∀ c ∈ ds, isDig c = true) :
    pyLower ("Commande n".data ++ (sep ++ ds)) =
      "commande n".data ++ (sep ++ ds) := by
  rw [pyLower, List.map_append, List.map_append]
  have h1 : List.map pyLowerChar "Commande n".data = "commande n".data := by decide
  have h2 : List.map pyLowerChar sep = sep :=
    List.map_congr_left (fun c hc => pyLowerChar_degSpace (hsep c hc)) |>.trans (List.map_id sep)
  have h3 : List.map pyLowerChar ds = ds :=
    List.map_congr_left (fun c hc => pyLowerChar_dig (hds c hc)) |>.trans (List.map_id ds)
  rw [h1, h2, h3]

/-! ## Date-pattern lemmas

The filename is a chain of underscore-separated segments followed by
`.html`; `segJoin` builds such chains and `ascSplits` is the closed form
of the `(\w+)_` split candidates on them. -/

/-- Join segments with single underscores in front of a tail. -/
def segJoin : List (List Char) → List Char → List Char
  | [], tail => tail
  | seg :: rest, tail => seg ++ '_' :: segJoin rest tail

/-- Closed form of `splitsAux` on a segment chain. -/
def ascSplits (acc : List Char) : List (List Char) → List Char → List (List Char × List Char)
  | [], _ => []
  | seg :: rest, tail =>
    (acc.reverse ++ seg, segJoin rest tail) ::
      ascSplits ('_' :: (seg.reverse ++ acc)) rest tail

/-- `splitsAux` on a word segment: consume it into the accumulator. -/
theorem splitsAux_append_word (xs ys acc : List Char)
    (h : ∀ c ∈ xs, isWordChar c = true ∧ c ≠ '_') :
    splitsAux (xs ++ ys) acc = splitsAux ys (xs.reverse ++ acc) := by
  induction xs generalizing acc with
  | nil => simp
  | cons c t ih =>
    have hc := h c (by simp)
    rw [List.cons_append, splitsAux, if_pos hc.1]
    rw [if_neg (by simp [hc.2])]
    rw [List.nil_append, ih (c :: acc) (fun a ha => h a (by simp [ha]))]
    simp

/-- `splitsAux` at an underscore with nonempty accumulator: emit a
split. -/
theorem splitsAux_underscore (ys acc : List Char) (h : acc ≠ []) :
    splitsAux ('_' :: ys) acc = (acc.reverse, ys) :: splitsAux ys ('_' :: acc) := by
  rw [splitsAux, if_pos (by decide), if_pos ⟨rfl, h⟩]
  simp

/-- `splitsAux` stops at a non-word character. -/
theorem splitsAux_not_word (c : Char) (ys acc : List Char)
    (h : isWordChar c = false) : splitsAux (c :: ys) acc = [] := by
  rw [splitsAux, if_neg (by simp [h])]

/-- `splitsAux` on a segment chain with the `.html` tail. -/
theorem splitsAux_segJoin (segs : List (List Char)) (acc : List Char)
    (hsegs : ∀ seg ∈ segs, seg ≠ [] ∧ ∀ c ∈ seg, isWordChar c = true ∧ c ≠ '_') :
    splitsAux (segJoin segs ".html".data) acc = ascSplits acc segs ".html".data := by
  induction segs generalizing acc with
  | nil =>
    rw [segJoin, ascSplits]
    exact splitsAux_not_word '.' _ acc (by decide)
  | cons seg rest ih =>
    obtain ⟨hne, hchars⟩ := hsegs seg (by simp)
    rw [segJoin, ascSplits, splitsAux_append_word seg _ acc hchars,
      splitsAux_underscore _ _ (by simp [hne]),
      ih _ (fun sg hsg => hsegs sg (by simp [hsg]))]
    simp

/-- `(\d+)_` on a digit segment followed by an underscore. -/
theorem parseNum_digits (x r : List Char) (hx : x ≠ [])
    (hd : ∀ c ∈ x, isDig c = true) :
    parseNum (x ++ '_' :: r) = some (x, r) := by
  rw [parseNum]
  have ht : (x ++ '_' :: r).takeWhile isDig = x := by
    rw [takeWhile_append_all x _ hd, takeWhile_cons_neg r (by decide)]
    simp
  rw [ht, if_neg (by simp [hx])]
  have hdrop : (x ++ '_' :: r).drop x.length = '_' :: r := List.drop_left x _
  rw [hdrop]
  rfl

/-- `(\d+)_` fails on a chain headed by a letters-only segment. -/
theorem parseNum_letters (x r : List Char) (hx : x ≠ [])
    (hl : ∀ c ∈ x, isAsciiLetter c = true) :
    parseNum (x ++ r) = none := by
  cases x with
  | nil => exact absurd rfl hx
  | cons c t =>
    rw [parseNum]
    rw [List.cons_append, takeWhile_cons_neg _ (isLetter_not_dig (hl c (by simp)))]
    simp

/-- `(\d+)_` fails on the `.html` tail. -/
theorem parseNum_html : parseNum ".html".data = none := by decide

/-- The rigid four-number tail fails when no segment is left. -/
theorem dateTail_zero : dateTail ".html".data = none := by decide

/-- The rigid tail fails on one remaining digit segment. -/
theorem dateTail_one (a : List Char) (ha : a ≠ []) (had : ∀ c ∈ a, isDig c = true) :
    dateTail (segJoin [a] ".html".data) = none := by
  rw [dateTail, segJoin, segJoin, parseNum_digits a ".html".data ha had,
    Option.some_bind]
  simp only []
  rw [parseNum_html, Option.none_bind]

/-- The rigid tail fails on two remaining digit segments. -/
theorem dateTail_two (a b : List Char) (ha : a ≠ []) (had : ∀ c ∈ a, isDig c = true)
    (hb : b ≠ []) (hbd : ∀ c ∈ b, isDig c = true) :
    dateTail (segJoin [a, b] ".html".data) = none := by
  rw [dateTail, segJoin, parseNum_digits a (segJoin [b] ".html".data) ha had,
    Option.some_bind]
  simp only []
  rw [segJoin, segJoin, parseNum_digits b ".html".data hb hbd, Option.some_bind]
  simp only []
  rw [parseNum_html, Option.none_bind]

/-- The rigid tail fails on three remaining digit segments. -/
theorem dateTail_three (a b c : List Char)
    (ha : a ≠ []) (had : ∀ ch ∈ a, isDig ch = true)
    (hb : b ≠ []) (hbd : ∀ ch ∈ b, isDig ch = true)
    (hc : c ≠ []) (hcd : ∀ ch ∈ c, isDig ch = true) :
    dateTail (segJoin [a, b, c] ".html".data) = none := by
  rw [dateTail, segJoin, parseNum_digits a (segJoin [b, c] ".html".data) ha had,
    Option.some_bind]
  simp only []
  rw [segJoin, parseNum_digits b (segJoin [c] ".html".data) hb hbd, Option.some_bind]
  simp only []
  rw [segJoin, segJoin, parseNum_digits c ".html".data hc hcd, Option.some_bind]
  simp only []
  rw [parseNum_html, Option.none_bind]

/-- The rigid tail succeeds on exactly four digit segments. -/
theorem dateTail_four (a b c d : List Char)
    (ha : a ≠ []) (had : ∀ ch ∈ a, isDig ch = true)
    (hb : b ≠ []) (hbd : ∀ ch ∈ b, isDig ch = true)
    (hc : c ≠ []) (hcd : ∀ ch ∈ c, isDig ch = true)
    (hd : d ≠ []) (hdd : ∀ ch ∈ d, isDig ch = true) :
    dateTail (segJoin [a, b, c, d] ".html".data) = some (a, b, c, d) := by
  rw [dateTail, segJoin, parseNum_digits a (segJoin [b, c, d] ".html".data) ha had,
    Option.some_bind]
  simp only []
  rw [segJoin, parseNum_digits b (segJoin [c, d] ".html".data) hb hbd, Option.some_bind]
  simp only []
  rw [segJoin, parseNum_digits c (segJoin [d] ".html".data) hc hcd, Option.some_bind]
  simp only []
  rw [segJoin, segJoin, parseNum_digits d ".html".data hd hdd, Option.some_bind]
  simp only []
  rw [if_pos (by decide)]

/-- Rests occurring in the split candidates of a segment chain are the
proper suffix chains. -/
theorem ascSplits_rest_mem {e : List Char × List Char} (segs : List (List Char))
    (acc tail : List Char) (h : e ∈ ascSplits acc segs tail) :
    ∃ k, k < segs.length ∧ e.2 = segJoin (segs.drop (k + 1)) tail := by
  induction segs generalizing acc with
  | nil => cases h
  | cons seg rest ih =>
    rw [ascSplits] at h
    rcases List.mem_cons.mp h with h | h
    · exact ⟨0, by simp, by rw [h]; simp⟩
    · obtain ⟨k, hk, he⟩ := ih _ h
      exact ⟨k + 1, by simp [Nat.succ_lt_succ hk], by simpa using he⟩

/-- `findSome?` over a singleton. -/
theorem findSome?_singleton {α β : Type} (F : α → Option β) (x : α) :
    List.findSome? F [x] = F x := by
  rw [List.findSome?_cons]
  cases F x <;> rfl

/-- Greedy scan of the split candidates: when every candidate except the
shortest fails, the shortest one decides the result. -/
theorem findSome?_ascSplits_reverse {α : Type} (F : List Char × List Char → Option α)
    (seg : List Char) (rest : List (List Char)) (acc tail : List Char)
    (hrest : ∀ e ∈ ascSplits ('_' :: (seg.reverse ++ acc)) rest tail, F e = none) :
    List.findSome? F ((ascSplits acc (seg :: rest) tail).reverse) =
      F (acc.reverse ++ seg, segJoin rest tail) := by
  rw [ascSplits, List.reverse_cons, List.findSome?_append,
    List.findSome?_eq_none_iff.mpr (by
      intro x hx
      exact hrest x (List.mem_reverse.mp hx)),
    Option.none_or, findSome?_singleton]

/-- Segments made of digits or letters are word segments without
underscores. -/
theorem seg_word_of_letters {x : List Char} (hl : ∀ c ∈ x, isAsciiLetter c = true) :
    ∀ c ∈ x, isWordChar c = true ∧ c ≠ '_' :=
  fun c hc => ⟨isLetter_word (hl c hc), isLetter_ne_underscore (hl c hc)⟩

/-- Digit segments are word segments without underscores. -/
theorem seg_word_of_digits {x : List Char} (hd : ∀ c ∈ x, isDig c = true) :
    ∀ c ∈ x, isWordChar c = true ∧ c ≠ '_' :=
  fun c hc => ⟨isDig_word (hd c hc), isDig_ne_underscore (hd c hc)⟩

/-- `wordSplits` on a segment chain. -/
theorem wordSplits_segJoin (segs : List (List Char))
    (hsegs : ∀ sg ∈ segs, sg ≠ [] ∧ ∀ c ∈ sg, isWordChar c = true ∧ c ≠ '_') :
    wordSplits (segJoin segs ".html".data) = (ascSplits [] segs ".html".data).reverse := by
  rw [wordSplits, splitsAux_segJoin segs [] hsegs]

/-- The rigid tail fails on every digit-segment chain of at most three
segments. -/
theorem dateTail_segJoin_short (segs : List (List Char)) (hlen : segs.length ≤ 3)
    (hdig : ∀ sg ∈ segs, sg ≠ [] ∧ ∀ c ∈ sg, isDig c = true) :
    dateTail (segJoin segs ".html".data) = none := by
  match segs, hlen with
  | [], _ => exact dateTail_zero
  | [a], _ =>
    exact dateTail_one a (hdig a (by simp)).1 (hdig a (by simp)).2
  | [a, b], _ =>
    exact dateTail_two a b (hdig a (by simp)).1 (hdig a (by simp)).2
      (hdig b (by simp)).1 (hdig b (by simp)).2
  | [a, b, c], _ =>
    exact dateTail_three a b c (hdig a (by simp)).1 (hdig a (by simp)).2
      (hdig b (by simp)).1 (hdig b (by simp)).2
      (hdig c (by simp)).1 (hdig c (by simp)).2
  | a :: b :: c :: d :: rest, hlen =>
    simp only [List.length_cons] at hlen
    omega

/-- Month-group candidates over a digit-segment chain of at most four
segments never complete the rigid tail. -/
theorem dateF2_short (s1 p2 : List Char × List Char) (segs : List (List Char))
    (hp : p2.2 = segJoin segs ".html".data) (hlen : segs.length ≤ 4)
    (hdig : ∀ sg ∈ segs, sg ≠ [] ∧ ∀ c ∈ sg, isDig c = true) :
    dateF2 s1 p2 = none := by
  rw [dateF2, hp,
    wordSplits_segJoin segs (fun sg hsg => ⟨(hdig sg hsg).1, seg_word_of_digits (hdig sg hsg).2⟩)]
  apply List.findSome?_eq_none_iff.mpr
  intro e he
  obtain ⟨k, hk, he2⟩ := ascSplits_rest_mem segs [] _ (List.mem_reverse.mp he)
  rw [dateF3, he2, dateTail_segJoin_short _ (by rw [List.length_drop]; omega)
    (fun sg hsg => hdig sg (List.drop_subset _ _ hsg))]
  rfl

/-- The filename pattern attempt at the start of a well-formed filename
finds exactly the seven tokens: every longer weekday candidate fails to
complete the pattern, so the greedy scan falls through to the intended
split. -/
theorem dateMatchAt_mk (w d mo y h mi s : List Char)
    (hw : w ≠ []) (hwl : ∀ c ∈ w, isAsciiLetter c = true)
    (hd : d ≠ []) (hdd : ∀ c ∈ d, isDig c = true)
    (hmo : mo ≠ []) (hmol : ∀ c ∈ mo, isAsciiLetter c = true)
    (hy : y ≠ []) (hyd : ∀ c ∈ y, isDig c = true)
    (hh : h ≠ []) (hhd : ∀ c ∈ h, isDig c = true)
    (hmi : mi ≠ []) (hmid : ∀ c ∈ mi, isDig c = true)
    (hs : s ≠ []) (hsd : ∀ c ∈ s, isDig c = true) :
    dateMatchAt (segJoin [w, d, mo, y, h, mi, s] ".html".data) =
      some (w, d, mo, y, h, mi, s) := by
  have hsegs7 : ∀ sg ∈ [w, d, mo, y, h, mi, s],
      sg ≠ [] ∧ ∀ c ∈ sg, isWordChar c = true ∧ c ≠ '_' := by
    intro sg hsg
    simp only [List.mem_cons, List.not_mem_nil, or_false] at hsg
    rcases hsg with rfl | rfl | rfl | rfl | rfl | rfl | rfl
    · exact ⟨hw, seg_word_of_letters hwl⟩
    · exact ⟨hd, seg_word_of_digits hdd⟩
    · exact ⟨hmo, seg_word_of_letters hmol⟩
    · exact ⟨hy, seg_word_of_digits hyd⟩
    · exact ⟨hh, seg_word_of_digits hhd⟩
    · exact ⟨hmi, seg_word_of_digits hmid⟩
    · exact ⟨hs, seg_word_of_digits hsd⟩
  have hsegs5 : ∀ sg ∈ [mo, y, h, mi, s],
      sg ≠ [] ∧ ∀ c ∈ sg, isWordChar c = true ∧ c ≠ '_' := by
    intro sg hsg
    simp only [List.mem_cons, List.not_mem_nil, or_false] at hsg
    rcases hsg with rfl | rfl | rfl | rfl | rfl
    · exact ⟨hmo, seg_word_of_letters hmol⟩
    · exact ⟨hy, seg_word_of_digits hyd⟩
    · exact ⟨hh, seg_word_of_digits hhd⟩
    · exact ⟨hmi, seg_word_of_digits hmid⟩
    · exact ⟨hs, seg_word_of_digits hsd⟩
  have hdig4 : ∀ sg ∈ [y, h, mi, s], sg ≠ [] ∧ ∀ c ∈ sg, isDig c = true := by
    intro sg hsg
    simp only [List.mem_cons, List.not_mem_nil, or_false] at hsg
    rcases hsg with rfl | rfl | rfl | rfl
    · exact ⟨hy, hyd⟩
    · exact ⟨hh, hhd⟩
    · exact ⟨hmi, hmid⟩
    · exact ⟨hs, hsd⟩
  have hInner : ∀ (s1 p2 : List Char × List Char),
      ∀ e ∈ ascSplits ('_' :: (mo.reverse ++ [])) [y, h, mi, s] ".html".data,
        dateF3 s1 p2 e = none := by
    intro s1 p2 e he
    obtain ⟨k, hk, he2⟩ := ascSplits_rest_mem _ _ _ he
    rw [dateF3, he2, dateTail_segJoin_short _
      (by rw [List.length_drop]; simp only [List.length_cons, List.length_nil]; omega)
      (fun sg hsg => hdig4 sg (List.drop_subset _ _ hsg))]
    rfl
  have hOuter : ∀ e ∈ ascSplits ('_' :: (w.reverse ++ [])) [d, mo, y, h, mi, s] ".html".data,
      dateF1 e = none := by
    intro e he
    obtain ⟨k, hk, he2⟩ := ascSplits_rest_mem _ _ _ he
    match k, hk with
    | 0, _ =>
      have he3 : e.2 = segJoin [mo, y, h, mi, s] ".html".data := he2
      rw [dateF1, he3, segJoin, parseNum_letters mo _ hmo hmol, Option.none_bind]
    | 1, _ =>
      have he3 : e.2 = segJoin [y, h, mi, s] ".html".data := he2
      rw [dateF1, he3, segJoin, parseNum_digits y _ hy hyd, Option.some_bind]
      exact dateF2_short e _ [h, mi, s] rfl (by simp)
        (fun sg hsg => hdig4 sg (by simp only [List.mem_cons] at hsg ⊢; tauto))
    | 2, _ =>
      have he3 : e.2 = segJoin [h, mi, s] ".html".data := he2
      rw [dateF1, he3, segJoin, parseNum_digits h _ hh hhd, Option.some_bind]
      exact dateF2_short e _ [mi, s] rfl (by simp)
        (fun sg hsg => hdig4 sg (by simp only [List.mem_cons] at hsg ⊢; tauto))
    | 3, _ =>
      have he3 : e.2 = segJoin [mi, s] ".html".data := he2
      rw [dateF1, he3, segJoin, parseNum_digits mi _ hmi hmid, Option.some_bind]
      exact dateF2_short e _ [s] rfl (by simp)
        (fun sg hsg => hdig4 sg (by simp only [List.mem_cons] at hsg ⊢; tauto))
    | 4, _ =>
      have he3 : e.2 = segJoin [s] ".html".data := he2
      rw [dateF1, he3, segJoin, segJoin, parseNum_digits s _ hs hsd, Option.some_bind]
      exact dateF2_short e _ [] rfl (by simp) (by simp)
    | 5, _ =>
      have he3 : e.2 = segJoin [] ".html".data := he2
      rw [dateF1, he3, segJoin, parseNum_html, Option.none_bind]
    | n + 6, hk =>
      simp only [List.length_cons, List.length_nil] at hk
      omega
  rw [dateMatchAt, wordSplits_segJoin _ hsegs7,
    findSome?_ascSplits_reverse dateF1 w [d, mo, y, h, mi, s] [] ".html".data hOuter]
  have hp1 : ((([] : List Char).reverse ++ w, segJoin [d, mo, y, h, mi, s] ".html".data) :
      List Char × List Char) = (w, segJoin [d, mo, y, h, mi, s] ".html".data) := by
    simp
  rw [hp1, dateF1]
  have hp2 : ((w, segJoin [d, mo, y, h, mi, s] ".html".data) :
      List Char × List Char).2 = segJoin [d, mo, y, h, mi, s] ".html".data := rfl
  rw [hp2, segJoin, parseNum_digits d _ hd hdd, Option.some_bind, dateF2]
  have hp3 : ((d, segJoin [mo, y, h, mi, s] ".html".data) : List Char × List Char).2 =
      segJoin [mo, y, h, mi, s] ".html".data := rfl
  rw [hp3, wordSplits_segJoin _ hsegs5,
    findSome?_ascSplits_reverse _ mo [y, h, mi, s] [] ".html".data (hInner _ _)]
  have hp4 : ((([] : List Char).reverse ++ mo, segJoin [y, h, mi, s] ".html".data) :
      List Char × List Char) = (mo, segJoin [y, h, mi, s] ".html".data) := by
    simp
  rw [hp4, dateF3]
  have hp5 : ((mo, segJoin [y, h, mi, s] ".html".data) : List Char × List Char).2 =
      segJoin [y, h, mi, s] ".html".data := rfl
  rw [hp5, dateTail_four y h mi s hy hyd hh hhd hmi hmid hs hsd, Option.map_some']
  rfl

/-- A successful attempt at position zero is what the leftmost search
returns. -/
theorem dateSearch_of_matchAt {cs : List Char}
    {r : List Char × List Char × List Char × List Char × List Char × List Char × List Char}
    (h : dateMatchAt cs = some r) : dateSearch cs = some r := by
  cases cs with
  | nil =>
    rw [dateMatchAt] at h
    simp [wordSplits, splitsAux] at h
  | cons c t =>
    rw [dateSearch, h]

/-- A well-formed filename, as a character list. -/
def mkFilenameChars (w d mo y h mi s : List Char) : List Char :=
  segJoin [w, d, mo, y, h, mi, s] ".html".data

/-- `extract_date_from_filename` on a well-formed filename: groups are
the seven tokens, the month comes from the table, and the result is the
record exactly when the `datetime` ranges hold. -/
theorem extract_date_mk (w d mo y h mi s : List Char)
    (hw : w ≠ []) (hwl : ∀ c ∈ w, isAsciiLetter c = true)
    (hd : d ≠ []) (hdd : ∀ c ∈ d, isDig c = true)
    (hmo : mo ≠ []) (hmol : ∀ c ∈ mo, isAsciiLetter c = true)
    (hy : y ≠ []) (hyd : ∀ c ∈ y, isDig c = true)
    (hh : h ≠ []) (hhd : ∀ c ∈ h, isDig c = true)
    (hmi : mi ≠ []) (hmid : ∀ c ∈ mi, isDig c = true)
    (hs : s ≠ []) (hsd : ∀ c ∈ s, isDig c = true) :
    extract_date_from_filename (mkFilenameChars w d mo y h mi s).asString =
      (if validDateTime (digitsVal y) (moisMap mo) (digitsVal d)
          (digitsVal h) (digitsVal mi) (digitsVal s) then
        some ⟨w.asString, digitsVal y, moisMap mo, digitsVal d,
          digitsVal h, digitsVal mi, digitsVal s⟩
      else none) := by
  have hseq : ((mkFilenameChars w d mo y h mi s).asString).data =
      mkFilenameChars w d mo y h mi s := rfl
  rw [extract_date_from_filename, hseq, mkFilenameChars,
    dateSearch_of_matchAt (dateMatchAt_mk w d mo y h mi s hw hwl hd hdd hmo hmol
      hy hyd hh hhd hmi hmid hs hsd)]

/-! ## Claim C1 -/

/-- A fluid info table flagged right-aligned only by its inline
`text-align:right` style (no `align` attribute). -/
def C1table : Dom :=
  .elem "table" [("class", "fluid"), ("style", "text-align:right")]
    (.elem "p" [("style", "font-weight:bolder")] (.text "Chez Luigi" .nil) .nil) .nil

/-- A document whose only fluid table is `C1table`. -/
def C1doc : Dom := .elem "html" [] C1table .nil

/-- C1 counterexample: a fluid table carrying the `text-align:right`
inline-style right-alignment flag nevertheless supplies the restaurant
block, contradicting the claim that such a table never does. -/
theorem C1_counterexample :
    containsSub textAlignRightLit (strDom C1table) = true ∧
      (extract_restaurant_info C1doc).nom = some "Chez Luigi" ∧
      (extract_client_info C1doc).nom = some "Chez Luigi" := by
  decide

/-- C1 (amended): the customer extractor takes the first fluid table
that is flagged right-aligned (attribute or inline style) and has a
nonempty bold name; the restaurant extractor takes the first fluid table
with an acceptable bold name whose serialisation contains `align="left"`
or does not contain `align="right"` — the `text-align:right` inline
style alone does not exclude a table from the restaurant role. -/
theorem C1_party_discriminator :
    (∀ soup : Dom, extract_restaurant_info soup =
      ((fluidTables soup).find? restTakes).elim emptyParty partyFromTable)
    ∧ (∀ (soup : Dom) (t : Dom), (fluidTables soup).find? clientTakes = some t →
        extract_client_info soup = partyFromTable t)
    ∧ (∀ (t p0 : Dom) (ps : List Dom), boldPs t = p0 :: ps →
        clean_text (getTextStripped p0) ≠ "" → rightFlagged t = true →
        clientTakes t = true)
    ∧ (∀ (t p0 : Dom) (ps : List Dom), boldPs t = p0 :: ps →
        clean_text (getTextStripped p0) ≠ "" →
        (clean_text (getTextStripped p0)).length < 100 →
        containsSub alignRightLit (strDom t) = false →
        restTakes t = true) := by
  refine ⟨?_, ?_, ?_, ?_⟩
  · intro soup
    rw [extract_restaurant_info, restLoop_eq_find]
  · intro soup t hfind
    have htakes : clientTakes t = true := List.find?_some hfind
    have hnom : (partyFromTable t).nom ≠ none ∧ (partyFromTable t).nom ≠ some "" := by
      rw [clientTakes] at htakes
      cases hb : boldPs t with
      | nil => rw [hb] at htakes; cases htakes
      | cons p0 ps =>
        rw [hb, decide_eq_true_eq] at htakes
        rw [partyFromTable, hb]
        exact ⟨by simp [buildParty], by simp [buildParty, htakes.2]⟩
    rw [extract_client_info, clientLoop_eq_find, hfind]
    simp only [Option.elim]
    rw [if_neg (by
      intro hor
      rcases hor with hor | hor
      · exact hnom.1 hor
      · exact hnom.2 hor)]
  · intro t p0 ps hb hne hflag
    rw [clientTakes, hb, decide_eq_true_eq]
    rw [rightFlagged, Bool.or_eq_true] at hflag
    rcases hflag with hflag | hflag
    · exact ⟨Or.inl hflag, hne⟩
    · exact ⟨Or.inr hflag, hne⟩
  · intro t p0 ps hb hne hlen hright
    rw [restTakes, hb, decide_eq_true_eq]
    exact ⟨⟨hne, hlen⟩, Or.inr (by simp [hright])⟩

/-- C1 witness: the restaurant-acceptance clause applied to the
style-only right-flagged table. -/
theorem C1_witness : restTakes C1table = true :=
  C1_party_discriminator.2.2.2 C1table
    (.elem "p" [("style", "font-weight:bolder")] (.text "Chez Luigi" .nil) .nil) []
    (by decide) (by decide) (by decide) (by decide)

/-! ## Claim C2 -/

/-- A document with no elements at all, only text matching the
order-number fallback phrase. -/
def C2doc : Dom := .text "Le numéro de commande est: 42" .nil

/-- C2 counterexample: a document with none of the queried structural
elements (no fluid table, no listitem table, no h2, no tr) still yields
a non-null order number through the full-text fallback, contradicting
the all-null claim. -/
theorem C2_counterexample :
    fluidTables C2doc = [] ∧ listitemTable C2doc = none ∧
      h2Elems C2doc = [] ∧ trsAll C2doc = [] ∧
      (extract_order_info C2doc).numero = some "42" := by
  decide

/-- C2 (amended): a parsed document with no fluid table, no listitem
table, no h2 and no tr yields an empty item list and all-null records —
except that the order number can still be set by the full-text fallback
phrase; when the document text does not match that phrase either, the
order number is null as well. -/
theorem C2_structural_absence (doc : Dom)
    (h1 : fluidTables doc = []) (h2 : listitemTable doc = none)
    (h3 : h2Elems doc = []) (h4 : trsAll doc = [])
    (h5 : orderFbSearch (pyLower (clean_text (getTextRaw doc)).data) = none) :
    extract_items doc = [] ∧ extract_restaurant_info doc = emptyParty ∧
      extract_client_info doc = emptyParty ∧
      extract_order_info doc = ⟨none⟩ ∧ extract_totals doc = emptyTotals := by
  refine ⟨?_, ?_, ?_, ?_, ?_⟩
  · rw [extract_items, h2]
  · rw [extract_restaurant_info, h1]
    rfl
  · rw [extract_client_info, h1, h3]
    rfl
  · rw [extract_order_info, h3, h5]
    rfl
  · rw [extract_totals, h4]
    rfl

/-- C2 witness: the amended theorem applied to a concrete all-absent
document. -/
theorem C2_witness :
    extract_items (Dom.text "bonjour" .nil) = [] ∧
      extract_restaurant_info (Dom.text "bonjour" .nil) = emptyParty ∧
      extract_client_info (Dom.text "bonjour" .nil) = emptyParty ∧
      extract_order_info (Dom.text "bonjour" .nil) = ⟨none⟩ ∧
      extract_totals (Dom.text "bonjour" .nil) = emptyTotals :=
  C2_structural_absence (Dom.text "bonjour" .nil) (by decide) (by decide)
    (by decide) (by decide) (by decide)

/-! ## Claim C3 -/

/-- Label paragraph of the `Sous-total` row. -/
def C3lp1 : Dom := .elem "p" [] (.text "Sous-total:" .nil) .nil

/-- Label paragraph of the grand-total row, carrying the font-size
marker. -/
def C3lp2 : Dom := .elem "p" [("style", "font-size:34px")] (.text "Total:" .nil) .nil

/-- The `Sous-total: 10,00 €` row. -/
def C3row1 : Dom :=
  .elem "tr" []
    (.elem "td" [] C3lp1
      (.elem "td" [] (.elem "p" [] (.text "10,00 €" .nil) .nil) .nil)) .nil

/-- The `Total: 12,50 €` row (with the size marker). -/
def C3row2 : Dom :=
  .elem "tr" []
    (.elem "td" [] C3lp2
      (.elem "td" [] (.elem "p" [] (.text "12,50 €" .nil) .nil) .nil)) .nil

/-- A document with both rows. -/
def C3doc : Dom :=
  .elem "table" []
    (.elem "tr" []
      (.elem "td" [] C3lp1
        (.elem "td" [] (.elem "p" [] (.text "10,00 €" .nil) .nil) .nil))
      (.elem "tr" []
        (.elem "td" [] C3lp2
          (.elem "td" [] (.elem "p" [] (.text "12,50 €" .nil) .nil) .nil)) .nil))
    .nil

/-- C3: a row whose label contains `Sous-total` sets the subtotal and
never the grand total; the grand total changes only for a row whose
label contains `Total` and whose label node carries the `class="total"`
or `font-size:34px` marker; on the two concrete rows the result is
subtotal 10.00 and total 12.50. -/
theorem C3_total_label_discipline :
    (∀ (acc : Totals) (tr lp : Dom) (lt : String) (v : ℚ),
      rowLabelPrice tr = some (lp, lt, v) →
      containsSub "Sous-total".data lt.data = true →
      (totalsStep acc tr).sous_total = some v ∧ (totalsStep acc tr).total = acc.total)
    ∧ (∀ (acc : Totals) (tr : Dom), (totalsStep acc tr).total ≠ acc.total →
        ∃ lp lt v, rowLabelPrice tr = some (lp, lt, v) ∧
          containsSub "Total".data lt.data = true ∧
          (containsSub "class=\"total\"".data (strDom lp) = true ∨
            containsSub "font-size:34px".data (strDom lp) = true))
    ∧ extract_totals C3doc = ⟨some 10, none, none, none, some (25 / 2)⟩ := by
  have hconc : extract_totals C3doc =
      ⟨some (((10 : ℕ) : ℚ) + ((0 : ℕ) : ℚ) / (10 : ℚ) ^ (2 : ℕ)), none, none, none,
        some (((12 : ℕ) : ℚ) + ((50 : ℕ) : ℚ) / (10 : ℚ) ^ (2 : ℕ))⟩ := by
    rfl
  refine ⟨?_, ?_, by rw [hconc]; simp only [Totals.mk.injEq, Option.some.injEq]; norm_num⟩
  · intro acc tr lp lt v hr hsub
    have hstep : totalsStep acc tr = applyLabel acc lp lt v := by rw [totalsStep, hr]
    rw [hstep, applyLabel_sous acc v hsub]
    exact ⟨rfl, rfl⟩
  · intro acc tr hne
    cases hr : rowLabelPrice tr with
    | none =>
      exfalso
      apply hne
      rw [totalsStep, hr]
    | some x =>
      obtain ⟨lp, lt, v⟩ := x
      have hstep : totalsStep acc tr = applyLabel acc lp lt v := by rw [totalsStep, hr]
      rw [hstep] at hne
      obtain ⟨ht, hm⟩ := applyLabel_total_changed hne
      exact ⟨lp, lt, v, rfl, ht, hm⟩

/-- C3 witness: the first clause applied to the concrete `Sous-total`
row over the empty accumulator. -/
theorem C3_witness :
    (totalsStep emptyTotals C3row1).sous_total =
        some (((10 : ℕ) : ℚ) + ((0 : ℕ) : ℚ) / (10 : ℚ) ^ (2 : ℕ)) ∧
      (totalsStep emptyTotals C3row1).total = emptyTotals.total :=
  C3_total_label_discipline.1 emptyTotals C3row1 C3lp1 "Sous-total:"
    (((10 : ℕ) : ℚ) + ((0 : ℕ) : ℚ) / (10 : ℚ) ^ (2 : ℕ))
    (by rfl) (by decide)

/-! ## Claim C4 -/

/-- C4: the street is the normalized first line unconditionally; the
postal code is the first 5-digit run found in a later line (index-based
specification `firstRun5`); when the postal line has nonempty trailing
alphabetic text, that text becomes the city with priority; the two
spec examples evaluate as stated. -/
theorem C4_address_fields :
    (∀ (l : String) (ls : List String),
      (parse_address_parts (l :: ls)).address = some (clean_text l))
    ∧ (∀ (l : String) (ls : List String),
      (parse_address_parts (l :: ls)).postal_code =
        ls.findSome? (fun line => (firstRun5 line.data).map List.asString))
    ∧ (∀ (l line : String) (ls : List String) (g : List Char),
      ls.find? (fun x => (search5 x.data).isSome) = some line →
      cityTrailSearch line.data = some g →
      (pyStrip g).asString ≠ "" →
      (parse_address_parts (l :: ls)).city = some ((pyStrip g).asString))
    ∧ parse_address_parts ["12 Rue de Paris", "75001 Paris"] =
        ⟨some "12 Rue de Paris", some "Paris", some "75001"⟩
    ∧ parse_address_parts ["5 Av. Victor Hugo", "Lyon"] =
        ⟨some "5 Av. Victor Hugo", some "Lyon", none⟩ := by
  refine ⟨?_, ?_, ?_, by decide, by decide⟩
  · intro l ls
    rfl
  · intro l ls
    have hp : (parse_address_parts (l :: ls)).postal_code =
        (postalScan ls).map (fun a => a.1) := rfl
    rw [hp, postalScan_fst]
  · intro l line ls g hfind htrail hne
    have hc : (parse_address_parts (l :: ls)).city = cityChoice (postalScan ls) ls := rfl
    rw [hc, postalScan_first ls line hfind, htrail]
    rw [cityChoice]
    simp only [Option.some_bind, Option.map_some']
    rw [if_neg (by
      intro hor
      rcases hor with hor | hor
      · cases hor
      · exact hne (by injection hor))]

/-- C4 witness: the priority clause applied to the concrete postal line
`75001 Paris`. -/
theorem C4_witness :
    (parse_address_parts ["x", "75001 Paris"]).city =
      some ((pyStrip " Paris".data).asString) :=
  C4_address_fields.2.2.1 "x" "75001 Paris" ["75001 Paris"] " Paris".data
    (by decide) (by decide) (by decide)

/-! ## Claim C5 -/

/-- A document whose only heading uses the `no` spelling. -/
def C5doc : Dom :=
  .elem "html" [] (.elem "h2" [] (.text "Commande no 123" .nil) .nil) .nil

/-- C5 counterexample: a heading reading `Commande no 123` is not
matched by the primary pattern (its separator class is `[°\s]+`, which
does not accept the letter `o`), and the extractor returns a null order
number, contradicting the claim that the `no` spelling is accepted. -/
theorem C5_counterexample :
    h2Elems C5doc = [.elem "h2" [] (.text "Commande no 123" .nil) .nil] ∧
      clean_text (getTextStripped (.elem "h2" [] (.text "Commande no 123" .nil) .nil)) =
        "Commande no 123" ∧
      (extract_order_info C5doc).numero = none := by
  decide

/-- C5 (amended): the primary heading path accepts `Commande` followed
by `n` and a nonempty run of `°`/whitespace separators before the digit
run (case-insensitively); the `no` spelling is not accepted.  For a
heading whose normalized text is exactly of that shape the digit run is
returned. -/
theorem C5_order_number_separators :
    ∀ (t : String) (sep ds : List Char),
      (clean_text (pyStripStr t)).data = "Commande n".data ++ (sep ++ ds) →
      sep ≠ [] → (∀ c ∈ sep, degSpaceCls c = true) →
      ds ≠ [] → (∀ c ∈ ds, isDig c = true) →
      extract_order_info (.elem "html" [] (.elem "h2" [] (.text t .nil) .nil) .nil) =
        ⟨some ds.asString⟩ := by
  intro t sep ds hcl hs0 hsep hd0 hds
  have hh2 : h2Elems (.elem "html" [] (.elem "h2" [] (.text t .nil) .nil) .nil) =
      [.elem "h2" [] (.text t .nil) .nil] := rfl
  have htext : clean_text (getTextStripped (Dom.elem "h2" [] (.text t .nil) .nil)) =
      clean_text (pyStripStr t) := rfl
  have hlow : pyLower (clean_text (getTextStripped (Dom.elem "h2" [] (.text t .nil) .nil))).data =
      "commande n".data ++ (sep ++ ds) := by
    rw [htext, hcl, pyLower_mk sep ds hsep hds]
  have hscan : h2OrderScan [Dom.elem "h2" [] (.text t .nil) .nil] = some ds.asString := by
    rw [h2OrderScan, hlow, orderPrimarySearch_mk sep ds hs0 hsep hd0 hds]
  rw [extract_order_info, hh2, hscan, if_neg (by
    rintro (hor | hor)
    · cases hor
    · exact asString_ne_empty hd0 (by injection hor))]

/-- C5 witness: the amended theorem applied to the `n°` spelling. -/
theorem C5_witness :
    extract_order_info (.elem "html" []
        (.elem "h2" [] (.text "Commande n° 123" .nil) .nil) .nil) =
      ⟨some ['1', '2', '3'].asString⟩ :=
  C5_order_number_separators "Commande n° 123" ['°', ' '] ['1', '2', '3']
    (by decide) (by decide) (by decide) (by decide) (by decide)

/-! ## Claim C6 -/

/-- A 120-character bold name. -/
def C6longNom : String := (List.replicate 120 'A').asString

/-- A right-aligned fluid table whose bold text is 120 characters. -/
def C6doc : Dom :=
  .elem "html" []
    (.elem "table" [("class", "fluid"), ("align", "right")]
      (.elem "p" [("style", "font-weight:bolder")] (.text C6longNom .nil) .nil) .nil) .nil

/-- The same table left-aligned, for the restaurant side. -/
def C6docL : Dom :=
  .elem "html" []
    (.elem "table" [("class", "fluid"), ("align", "left")]
      (.elem "p" [("style", "font-weight:bolder")] (.text C6longNom .nil) .nil) .nil) .nil

set_option maxRecDepth 8192 in
/-- C6 counterexample: the customer extractor accepts a bold name of
normalized length 120 (≥ 100), contradicting the claim that the
length guard applies to the customer extractor as well. -/
theorem C6_counterexample :
    100 ≤ C6longNom.length ∧ (extract_client_info C6doc).nom = some C6longNom := by
  decide

set_option maxRecDepth 8192 in
/-- C6 (amended): the `< 100` length guard on the bold name applies only
to the restaurant extractor; the customer extractor accepts any
nonempty bold name.  Concretely, the 120-character name is rejected on
the restaurant side and accepted on the customer side. -/
theorem C6_name_length_guard :
    (∀ (t p0 : Dom) (ps : List Dom), boldPs t = p0 :: ps →
      100 ≤ (clean_text (getTextStripped p0)).length → restTakes t = false)
    ∧ (∀ (t p0 : Dom) (ps : List Dom), boldPs t = p0 :: ps →
      clean_text (getTextStripped p0) ≠ "" → rightFlagged t = true →
      clientTakes t = true)
    ∧ extract_restaurant_info C6docL = emptyParty
    ∧ (extract_client_info C6doc).nom = some C6longNom := by
  refine ⟨?_, ?_, by decide, by decide⟩
  · intro t p0 ps hb hlen
    rw [restTakes, hb]
    refine decide_eq_false fun hh => ?_
    have := hh.1.2
    omega
  · intro t p0 ps hb hne hflag
    rw [clientTakes, hb, decide_eq_true_eq]
    rw [rightFlagged, Bool.or_eq_true] at hflag
    exact ⟨hflag, hne⟩

set_option maxRecDepth 8192 in
/-- C6 witness: the restaurant-side guard applied to the concrete
left-aligned long-name table. -/
theorem C6_witness :
    restTakes (Dom.elem "table" [("class", "fluid"), ("align", "left")]
      (.elem "p" [("style", "font-weight:bolder")] (.text C6longNom .nil) .nil) .nil) = false :=
  C6_name_length_guard.1 _
    (.elem "p" [("style", "font-weight:bolder")] (.text C6longNom .nil) .nil) []
    (by decide) (by decide)

/-! ## Claim C7 -/

/-- The listitem row with cells `2x`, `Margherita Pizza`, `9,50 €`. -/
def C7row : Dom :=
  .elem "tr" []
    (.elem "td" [] (.elem "p" [] (.text "2x" .nil) .nil)
      (.elem "td" [] (.elem "p" [("style", "color:#000001")] (.text "Margherita Pizza" .nil) .nil)
        (.elem "td" [] (.elem "p" [("style", "text-align:right")] (.text "9,50 €" .nil) .nil) .nil)))
    .nil

/-- A listitem table with the Margherita row. -/
def C7doc : Dom := .elem "table" [("role", "listitem")] C7row .nil

/-- The same row with a three-character name. -/
def C7rowShort : Dom :=
  .elem "tr" []
    (.elem "td" [] (.elem "p" [] (.text "2x" .nil) .nil)
      (.elem "td" [] (.elem "p" [("style", "color:#000001")] (.text "Pza" .nil) .nil)
        (.elem "td" [] (.elem "p" [("style", "text-align:right")] (.text "9,50 €" .nil) .nil) .nil)))
    .nil

/-- A listitem table with the short-name row. -/
def C7docShort : Dom := .elem "table" [("role", "listitem")] C7rowShort .nil

/-- C7: a row with at least two cells yields an item exactly when the
name is accepted (first `color:#000001` paragraph of cell 1, not itself
a quantity pattern, normalized length > 3), the item's name being that
text; the Margherita row yields quantity 2, name, no options and price
9.50, and a three-character name yields no item. -/
theorem C7_item_name_gate :
    (∀ (row c0 c1 : Dom) (rest : List Dom), tdsOf row = c0 :: c1 :: rest →
      (itemOfRow row).isSome = nameAccept c1 ∧
        ∀ it, itemOfRow row = some it → it.nom = acceptedName c1)
    ∧ extract_items C7doc =
        [⟨some 2, some "Margherita Pizza", [],
          some (((9 : ℕ) : ℚ) + ((50 : ℕ) : ℚ) / (10 : ℚ) ^ (2 : ℕ))⟩]
    ∧ extract_items C7docShort = [] := by
  refine ⟨itemOfRow_name, by rfl, by decide⟩

/-- C7 witness: the row-level clause applied to the Margherita row. -/
theorem C7_witness :
    (itemOfRow C7row).isSome =
      nameAccept (Dom.elem "td" []
        (.elem "p" [("style", "color:#000001")] (.text "Margherita Pizza" .nil) .nil) .nil) :=
  (C7_item_name_gate.1 C7row
    (.elem "td" [] (.elem "p" [] (.text "2x" .nil) .nil) .nil)
    (.elem "td" []
      (.elem "p" [("style", "color:#000001")] (.text "Margherita Pizza" .nil) .nil) .nil)
    [.elem "td" []
      (.elem "p" [("style", "text-align:right")] (.text "9,50 €" .nil) .nil) .nil]
    (by decide)).1

/-! ## Claim C9 -/

/-- First `Sous-total` row (10,00 €). -/
def C9row1 : Dom :=
  .elem "tr" []
    (.elem "td" [] (.elem "p" [] (.text "Sous-total:" .nil) .nil)
      (.elem "td" [] (.elem "p" [] (.text "10,00 €" .nil) .nil) .nil)) .nil

/-- Second `Sous-total` row (20,00 €). -/
def C9row2 : Dom :=
  .elem "tr" []
    (.elem "td" [] (.elem "p" [] (.text "Sous-total:" .nil) .nil)
      (.elem "td" [] (.elem "p" [] (.text "20,00 €" .nil) .nil) .nil)) .nil

/-- A document with two `Sous-total` rows, 10,00 then 20,00. -/
def C9doc : Dom :=
  .elem "table" []
    (.elem "tr" []
      (.elem "td" [] (.elem "p" [] (.text "Sous-total:" .nil) .nil)
        (.elem "td" [] (.elem "p" [] (.text "10,00 €" .nil) .nil) .nil))
      (.elem "tr" []
        (.elem "td" [] (.elem "p" [] (.text "Sous-total:" .nil) .nil)
          (.elem "td" [] (.elem "p" [] (.text "20,00 €" .nil) .nil) .nil)) .nil))
    .nil

/-- C9: there is no first-match lock — a matching row overwrites the
field regardless of earlier rows, so when the rows after a matching row
do not match the same label, that row's value is the final one; with two
`Sous-total` rows the later one (20.00) wins. -/
theorem C9_last_match_wins :
    (∀ (doc : Dom) (pre post : List Dom) (tr lp : Dom) (lt : String) (v : ℚ),
      trsAll doc = pre ++ tr :: post →
      rowLabelPrice tr = some (lp, lt, v) →
      containsSub "Sous-total".data lt.data = true →
      (∀ tr' ∈ post, setsSous tr' = false) →
      (extract_totals doc).sous_total = some v)
    ∧ (∀ (doc : Dom) (pre post : List Dom) (tr lp : Dom) (lt : String) (v : ℚ),
      trsAll doc = pre ++ tr :: post →
      rowLabelPrice tr = some (lp, lt, v) →
      totalBranchCond lp lt = true →
      (∀ tr' ∈ post, setsTotal tr' = false) →
      (extract_totals doc).total = some v)
    ∧ extract_totals C9doc = ⟨some 20, none, none, none, none⟩ := by
  have hconc : extract_totals C9doc =
      ⟨some (((20 : ℕ) : ℚ) + ((0 : ℕ) : ℚ) / (10 : ℚ) ^ (2 : ℕ)),
        none, none, none, none⟩ := by
    rfl
  refine ⟨?_, ?_,
    by rw [hconc]; simp only [Totals.mk.injEq, Option.some.injEq]; norm_num⟩
  · intro doc pre post tr lp lt v htr hr hsub hpost
    rw [extract_totals, htr, List.foldl_append, List.foldl_cons,
      foldl_sous_preserved post _ hpost]
    exact totalsStep_sous_set _ hr hsub
  · intro doc pre post tr lp lt v htr hr hcond hpost
    rw [extract_totals, htr, List.foldl_append, List.foldl_cons,
      foldl_total_preserved post _ hpost]
    exact totalsStep_total_set _ hr hcond

/-- C9 witness: the subtotal clause applied to the second row of the
two-row document (no rows follow it). -/
theorem C9_witness :
    (extract_totals C9doc).sous_total =
      some (((20 : ℕ) : ℚ) + ((0 : ℕ) : ℚ) / (10 : ℚ) ^ (2 : ℕ)) :=
  C9_last_match_wins.1 C9doc [C9row1] [] C9row2
    (.elem "p" [] (.text "Sous-total:" .nil) .nil) "Sous-total:"
    (((20 : ℕ) : ℚ) + ((0 : ℕ) : ℚ) / (10 : ℚ) ^ (2 : ℕ))
    (by decide) (by rfl) (by decide) (by simp)

/-! ## Claim C8 -/

/-- C8: on well-formed seven-token filenames the extractor captures the
seven tokens; the month table sends `Jan`..`Dec` to 1..12 and every
other token to 1; the result is null exactly when the `datetime` range
check fails. -/
theorem C8_date_extractor :
    (∀ w d mo y h mi s : List Char,
      w ≠ [] → (∀ c ∈ w, isAsciiLetter c = true) →
      d ≠ [] → (∀ c ∈ d, isDig c = true) →
      mo ≠ [] → (∀ c ∈ mo, isAsciiLetter c = true) →
      y ≠ [] → (∀ c ∈ y, isDig c = true) →
      h ≠ [] → (∀ c ∈ h, isDig c = true) →
      mi ≠ [] → (∀ c ∈ mi, isDig c = true) →
      s ≠ [] → (∀ c ∈ s, isDig c = true) →
      extract_date_from_filename (mkFilenameChars w d mo y h mi s).asString =
        (if validDateTime (digitsVal y) (moisMap mo) (digitsVal d)
            (digitsVal h) (digitsVal mi) (digitsVal s) then
          some ⟨w.asString, digitsVal y, moisMap mo, digitsVal d,
            digitsVal h, digitsVal mi, digitsVal s⟩
        else none))
    ∧ (moisMap "Jan".data = 1 ∧ moisMap "Feb".data = 2 ∧ moisMap "Mar".data = 3 ∧
        moisMap "Apr".data = 4 ∧ moisMap "May".data = 5 ∧ moisMap "Jun".data = 6 ∧
        moisMap "Jul".data = 7 ∧ moisMap "Aug".data = 8 ∧ moisMap "Sep".data = 9 ∧
        moisMap "Oct".data = 10 ∧ moisMap "Nov".data = 11 ∧ moisMap "Dec".data = 12)
    ∧ (∀ m : List Char, m ≠ "Jan".data → m ≠ "Feb".data → m ≠ "Mar".data →
        m ≠ "Apr".data → m ≠ "May".data → m ≠ "Jun".data → m ≠ "Jul".data →
        m ≠ "Aug".data → m ≠ "Sep".data → m ≠ "Oct".data → m ≠ "Nov".data →
        m ≠ "Dec".data → moisMap m = 1) := by
  refine ⟨?_, by decide, ?_⟩
  · intro w d mo y h mi s hw hwl hd hdd hmo hmol hy hyd hh hhd hmi hmid hs hsd
    exact extract_date_mk w d mo y h mi s hw hwl hd hdd hmo hmol hy hyd hh hhd
      hmi hmid hs hsd
  · intro m h1 h2 h3 h4 h5 h6 h7 h8 h9 h10 h11 h12
    rw [moisMap, if_neg h1, if_neg h2, if_neg h3, if_neg h4, if_neg h5, if_neg h6,
      if_neg h7, if_neg h8, if_neg h9, if_neg h10, if_neg h11, if_neg h12]

/-- C8 witness: the filename clause applied to
`Mon_15_Jan_2024_10_30_00_.html`. -/
theorem C8_witness :
    extract_date_from_filename
        (mkFilenameChars "Mon".data "15".data "Jan".data "2024".data
          "10".data "30".data "00".data).asString =
      (if validDateTime (digitsVal "2024".data) (moisMap "Jan".data)
          (digitsVal "15".data) (digitsVal "10".data) (digitsVal "30".data)
          (digitsVal "00".data) then
        some ⟨("Mon".data).asString, digitsVal "2024".data, moisMap "Jan".data,
          digitsVal "15".data, digitsVal "10".data, digitsVal "30".data,
          digitsVal "00".data⟩
      else none) :=
  C8_date_extractor.1 "Mon".data "15".data "Jan".data "2024".data "10".data
    "30".data "00".data (by decide) (by decide) (by decide) (by decide)
    (by decide) (by decide) (by decide) (by decide) (by decide) (by decide)
    (by decide) (by decide) (by decide) (by decide)

/-! ## Claim C10 -/

/-- The postal-adjacent city consists of letters and whitespace only. -/
theorem postalScan_city_chars {ls : List String} {x : String × Option String}
    (h : postalScan ls = some x) {c : String} (hc : x.2 = some c) :
    ∀ ch ∈ c.data, azsCls ch = true := by
  induction ls with
  | nil => cases h
  | cons line t ih =>
    rw [postalScan] at h
    cases hs : search5 line.data with
    | none =>
      rw [hs] at h
      exact ih h
    | some pc =>
      rw [hs] at h
      cases h
      simp only [Option.map_eq_some'] at hc
      obtain ⟨g, hg, rfl⟩ := hc
      intro ch hch
      have hmem : ch ∈ pyStrip g := hch
      exact cityTrailSearch_chars hg ch (pyStrip_mem hmem)

/-- C10 counterexample: a postal line whose trailing text contains a tab
yields a city containing the tab, which is neither an ASCII letter nor a
space, contradicting the letters-and-spaces-only claim. -/
theorem C10_counterexample :
    (parse_address_parts ["x", "75001 Pa\tris"]).city = some "Pa\tris" ∧
      '\t' ∈ "Pa\tris".data ∧ isAsciiLetter '\t' = false ∧ ¬ ('\t' = ' ') := by
  decide

/-- C10 (amended): every non-null city produced by the address parser
consists solely of ASCII letters and Python whitespace characters (not
just the space character); a candidate containing digits or accented
characters is never produced — `75001 Orléans` yields the postal code
and a null city. -/
theorem C10_city_charset :
    (∀ (lines : List String) (c : String),
      (parse_address_parts lines).city = some c →
      ∀ ch ∈ c.data, isAsciiLetter ch = true ∨ pySpace ch = true)
    ∧ parse_address_parts ["a", "75001 Orléans"] = ⟨some "a", none, some "75001"⟩ := by
  refine ⟨?_, by decide⟩
  intro lines c hcity ch hch
  rw [← Bool.or_eq_true, ← azsCls]
  cases lines with
  | nil => simp [parse_address_parts] at hcity
  | cons l ls =>
    have hc : cityChoice (postalScan ls) ls = some c := hcity
    rw [cityChoice] at hc
    split_ifs at hc with h0
    · cases hfb : fbCityScan ls with
      | some c2 =>
        rw [hfb] at hc
        cases hc
        exact fbCityScan_chars hfb ch hch
      | none =>
        rw [hfb] at hc
        rcases h0 with h0 | h0
        · rw [h0] at hc
          cases hc
        · rw [h0] at hc
          cases hc
          cases hch
    · cases hp : postalScan ls with
      | none =>
        rw [hp] at hc
        cases hc
      | some x =>
        rw [hp] at hc
        simp only [Option.some_bind] at hc
        exact postalScan_city_chars hp hc ch hch

/-- C10 witness: the charset clause applied to the city extracted from
`75001 Paris`. -/
theorem C10_witness : isAsciiLetter 'P' = true ∨ pySpace 'P' = true :=
  C10_city_charset.1 ["x", "75001 Paris"] "Paris" (by decide) 'P' (by decide)
